import Mathlib

/-!
Validation of Tekton pipelines against the task catalog (repository `mario`).

A shallow embedding of `cmd/validate.go`: the three validators
`ValidateTaskRefs`, `ValidateParams`, `ValidateWorkspaces`, their helpers, and
the parts of the Go standard library they call (`sort.Strings`, the `%v` verb
of `fmt.Sprintf` for `[]string` and `map[string][]string`).

Go slices are lists, a nil pointer is `none`, a Go `error` is `Option String`
(`none` for `nil`, `some msg` for `errors.New(msg)`), and a Go map is an
association list with at most one pair per key.
-/

namespace Mario

/-! ## Data model (the fields of the Tekton v1beta1 types the validators read) -/

/-- The `TaskRef` of a pipeline task: the referenced name and the kind tag. -/
structure TaskRef where
  Name : String
  Kind : String
deriving DecidableEq

/-- A parameter value (`tknv1beta1.ArrayOrString`): a string or an array of strings. -/
inductive ParamValue where
  | string (StringVal : String)
  | array (ArrayVal : List String)
deriving DecidableEq

/-- A parameter binding of a pipeline task (`tknv1beta1.Param`); the value is never inspected. -/
structure Param where
  Name : String
  Value : ParamValue
deriving DecidableEq

/-- A workspace binding of a pipeline task (`tknv1beta1.WorkspacePipelineTaskBinding`). -/
structure WorkspacePipelineTaskBinding where
  Name : String
  Workspace : String
deriving DecidableEq

/-- A pipeline task (`tknv1beta1.PipelineTask`); `TaskRef` is a pointer in Go. -/
structure PipelineTask where
  Name : String
  TaskRef : Option TaskRef
  Params : List Param
  Workspaces : List WorkspacePipelineTaskBinding
deriving DecidableEq

/-- A parameter declaration (`tknv1beta1.ParamSpec`); `Default` is a pointer in Go. -/
structure ParamSpec where
  Name : String
  Default : Option ParamValue
deriving DecidableEq

/-- A workspace declaration of a task (`tknv1beta1.WorkspaceDeclaration`). -/
structure WorkspaceDeclaration where
  Name : String
  Optional : Bool
deriving DecidableEq

/-- A workspace declaration of a pipeline (`tknv1beta1.PipelineWorkspaceDeclaration`). -/
structure PipelineWorkspaceDeclaration where
  Name : String
  Optional : Bool
deriving DecidableEq

/-- The spec of a pipeline (`tknv1beta1.PipelineSpec`). -/
structure PipelineSpec where
  Params : List ParamSpec
  Workspaces : List PipelineWorkspaceDeclaration
  Tasks : List PipelineTask
  Finally : List PipelineTask
deriving DecidableEq

/-- The pipeline under validation; `Name` is what `GetName()` returns. -/
structure extendedPipeline where
  Name : String
  Spec : PipelineSpec
deriving DecidableEq

/-- The spec of a task or cluster task (`tknv1beta1.TaskSpec`). -/
structure TaskSpec where
  Params : List ParamSpec
  Workspaces : List WorkspaceDeclaration
deriving DecidableEq

/-- A namespaced task of the catalog. -/
structure extendedTask where
  Name : String
  Spec : TaskSpec
deriving DecidableEq

/-- A cluster task of the catalog. -/
structure extendedClusterTask where
  Name : String
  Spec : TaskSpec
deriving DecidableEq

/-- The interface `allTasks`: its two implementations are the two catalog kinds. -/
inductive allTasks where
  | task (et : extendedTask)
  | clusterTask (ect : extendedClusterTask)
deriving DecidableEq

/-- Method `getName` of the interface. -/
def allTasks.getName : allTasks → String
  | .task et => et.Name
  | .clusterTask ect => ect.Name

/-- Method `getParams` of the interface. -/
def allTasks.getParams : allTasks → List ParamSpec
  | .task et => et.Spec.Params
  | .clusterTask ect => ect.Spec.Params

/-- Method `getWorkspaces` of the interface. -/
def allTasks.getWorkspaces : allTasks → List WorkspaceDeclaration
  | .task et => et.Spec.Workspaces
  | .clusterTask ect => ect.Spec.Workspaces

/-! ## Go runtime and standard library -/

/-- The bytes of a Go string: the UTF-8 encoding, as numbers. -/
def stringBytes (s : String) : List Nat :=
  (s.data.flatMap String.utf8EncodeChar).map UInt8.toNat

/-- Byte-wise comparison of two byte sequences, `a <= b`: the first differing byte
decides, and a proper initial segment is smaller. -/
def bytesLE : List Nat → List Nat → Bool
  | [], _ => true
  | _ :: _, [] => false
  | a :: as, b :: bs => decide (a < b) || (decide (a = b) && bytesLE as bs)

/-- Go's `a <= b` on strings. -/
def stringLE (a b : String) : Prop := bytesLE (stringBytes a) (stringBytes b) = true

instance stringLE_decidable : DecidableRel stringLE :=
  fun a b => inferInstanceAs (Decidable (bytesLE (stringBytes a) (stringBytes b) = true))

/-- The call `sort.Strings(x)`: the slice in increasing byte-wise order. The result of
a sort of strings does not depend on the algorithm; insertion sort stands for it. -/
def sortStrings (x : List String) : List String :=
  List.insertionSort stringLE x

/-- The elements of a slice as `%v` prints them between the brackets: each element
after the first is preceded by one space. -/
def fmtElems : List String → String
  | [] => ""
  | [s] => s
  | s :: rest => s ++ " " ++ fmtElems rest

/-- The verb `%v` on a `[]string`. -/
def fmtStrings (l : List String) : String :=
  "[" ++ fmtElems l ++ "]"

/-- A Go `map[string][]string`: an association list, at most one pair per key. Go
leaves the iteration order of a map undefined; the validators only take its length
and print it, and printing sorts the keys. -/
abbrev GoMap := List (String × List String)

/-- The assignment `m[k] = v`: replaces the value of an existing key, adds a new key. -/
def mapSet : GoMap → String → List String → GoMap
  | [], k, v => [(k, v)]
  | (k', v') :: rest, k, v =>
    if k' = k then (k, v) :: rest else (k', v') :: mapSet rest k v

/-- The read `m[k]` with its presence flag. -/
def mapGet : GoMap → String → Option (List String)
  | [], _ => none
  | (k', v') :: rest, k => if k' = k then some v' else mapGet rest k

/-- The verb `%v` on a `map[string][]string`: the pairs `key:value` in increasing
order of the keys, separated by single spaces, between `map[` and `]`. -/
def fmtMap (m : GoMap) : String :=
  "map[" ++ fmtElems ((List.insertionSort (fun a b => stringLE a.1 b.1) m).map
    fun kv => kv.1 ++ ":" ++ fmtStrings kv.2) ++ "]"

/-! ## Helpers of `validate.go` -/

/-- Returns true if the slice includes the given string. -/
def sliceIncludeString : List String → String → Bool
  | [], _ => false
  | v :: rest, s => if v = s then true else sliceIncludeString rest s

/-- Returns items in smallSlice which do not exist in the bigSlice. -/
def sliceOutliers (bigSlice : List String) : List String → List String
  | [] => []
  | s :: rest =>
    if !sliceIncludeString bigSlice s then s :: sliceOutliers bigSlice rest
    else sliceOutliers bigSlice rest

/-- Gets all the tasks in Spec and Finally. -/
def allPipelineTasks (p : extendedPipeline) : List PipelineTask :=
  p.Spec.Tasks ++ p.Spec.Finally

/-- Returns a list of all tasks and clustertasks: the cluster tasks first. -/
def allclusterTasks (tList : List extendedTask) (ctList : List extendedClusterTask) :
    List allTasks :=
  ctList.map allTasks.clusterTask ++ tList.map allTasks.task

/-! ## ValidateTaskRefs -/

/-- The slice `pTasksNames` of `ValidateTaskRefs`: the names referenced with a kind
other than "ClusterTask". -/
def pTasksNames (p : extendedPipeline) : List String :=
  (allPipelineTasks p).filterMap fun t =>
    match t.TaskRef with
    | some r => if r.Kind = "ClusterTask" then none else some r.Name
    | none => none

/-- The slice `pClusterTasksNames` of `ValidateTaskRefs`: the names referenced with
kind "ClusterTask". -/
def pClusterTasksNames (p : extendedPipeline) : List String :=
  (allPipelineTasks p).filterMap fun t =>
    match t.TaskRef with
    | some r => if r.Kind = "ClusterTask" then some r.Name else none
    | none => none

/-- The slice `missingTasks` of `ValidateTaskRefs` before it is sorted. -/
def missingTasks (p : extendedPipeline) (cTasks : List extendedTask)
    (cClusterTasks : List extendedClusterTask) : List String :=
  sliceOutliers (cTasks.map (·.Name)) (pTasksNames p) ++
    sliceOutliers (cClusterTasks.map (·.Name)) (pClusterTasksNames p)

/-- The message of the error of `ValidateTaskRefs` for pipeline name `n` and the
sorted slice `l`. -/
def taskRefsMessage (n : String) (l : List String) : String :=
  "The following tasks/clusterTasks are used in " ++ n ++
    " pipeline but do not exist in the cluster: " ++ fmtStrings l

/-- Ensures that all the tasks and clusterTasks which are referred in a pipeline,
exist in the cluster. -/
def ValidateTaskRefs (p : extendedPipeline) (cTasks : List extendedTask)
    (cClusterTasks : List extendedClusterTask) : Option String :=
  let missing := missingTasks p cTasks cClusterTasks
  if missing.length > 0 then
    some (taskRefsMessage p.Name (sortStrings missing))
  else none

/-- The body of the recording loop shared by `ValidateParams` and `ValidateWorkspaces`:
a pipeline task with an empty missing list is skipped (`continue`), another one is
stored under its name. -/
def recordStep (miss : PipelineTask → List String) (m : GoMap) (pt : PipelineTask) : GoMap :=
  let missing := miss pt
  if missing.length < 1 then m else mapSet m pt.Name missing

/-! ## ValidateParams -/

/-- Returns all the parameters that are required by a given pipelineTask.
It does not include parameters that have a default value. -/
def requiredParams (pTask : PipelineTask) (cTask : allTasks) : List String :=
  match pTask.TaskRef with
  | some r =>
    if cTask.getName = r.Name then
      (cTask.getParams.filter fun cp => cp.Default = none).map (·.Name)
    else []
  | none => []

/-- The slice `pParamNames` of `ValidateParams`: the names of the parameter
bindings of all the pipeline tasks. -/
def pParamNames (p : extendedPipeline) : List String :=
  (allPipelineTasks p).flatMap fun pt => pt.Params.map (·.Name)

/-- The slice `requiredParamsList` that `ValidateParams` builds for one pipeline task. -/
def requiredParamsList (pt : PipelineTask) (cTasks : List extendedTask)
    (cClusterTasks : List extendedClusterTask) : List String :=
  (allclusterTasks cTasks cClusterTasks).flatMap fun ct => requiredParams pt ct

/-- The slice `missingParams` that `ValidateParams` computes for one pipeline task. -/
def missingParams (p : extendedPipeline) (cTasks : List extendedTask)
    (cClusterTasks : List extendedClusterTask) (pt : PipelineTask) : List String :=
  sliceOutliers (pParamNames p) (requiredParamsList pt cTasks cClusterTasks)

/-- The map `pTasksWithMissingParams` at the end of the second loop of `ValidateParams`. -/
def pTasksWithMissingParams (p : extendedPipeline) (cTasks : List extendedTask)
    (cClusterTasks : List extendedClusterTask) : GoMap :=
  (allPipelineTasks p).foldl (recordStep (missingParams p cTasks cClusterTasks)) []

/-- Ensures that all the non-default params that pipelineTasks need are present in
the spec.params of the pipeline (the comment of the source; the code reads the
parameter bindings of the pipeline tasks). -/
def ValidateParams (p : extendedPipeline) (cTasks : List extendedTask)
    (cClusterTasks : List extendedClusterTask) : Option String :=
  let m := pTasksWithMissingParams p cTasks cClusterTasks
  if m.length ≠ 0 then
    some (p.Name ++ " is missing the following params:\n" ++ fmtMap m)
  else none

/-! ## ValidateWorkspaces -/

/-- Returns all the workspaces that are required by a given a pipelineTask.
It does not include the task workspaces which are optional. -/
def requiredWorkspaces (pTask : PipelineTask) (cTask : allTasks) : List String :=
  match pTask.TaskRef with
  | some r =>
    if cTask.getName = r.Name then
      let cTaskWorkspaceNames := (cTask.getWorkspaces.filter fun ws => !ws.Optional).map (·.Name)
      let pTaskWorkspaceNames := pTask.Workspaces.map (·.Name)
      sliceOutliers pTaskWorkspaceNames cTaskWorkspaceNames ++
        pTask.Workspaces.map fun w => if w.Workspace = "" then w.Name else w.Workspace
    else []
  | none => []

/-- The slice `pWorkspaceNames` of `ValidateWorkspaces`: the names in spec.workspaces. -/
def pWorkspaceNames (p : extendedPipeline) : List String :=
  p.Spec.Workspaces.map (·.Name)

/-- The slice `requiredWorkspaceList` that `ValidateWorkspaces` builds for one pipeline task. -/
def requiredWorkspaceList (pt : PipelineTask) (cTasks : List extendedTask)
    (cClusterTasks : List extendedClusterTask) : List String :=
  (allclusterTasks cTasks cClusterTasks).flatMap fun ct => requiredWorkspaces pt ct

/-- The slice `missingWorkspaces` that `ValidateWorkspaces` computes for one pipeline task. -/
def missingWorkspaces (p : extendedPipeline) (cTasks : List extendedTask)
    (cClusterTasks : List extendedClusterTask) (pt : PipelineTask) : List String :=
  sliceOutliers (pWorkspaceNames p) (requiredWorkspaceList pt cTasks cClusterTasks)

/-- The map `pTasksWithMissingWorkspaces` at the end of the loop of `ValidateWorkspaces`. -/
def pTasksWithMissingWorkspaces (p : extendedPipeline) (cTasks : List extendedTask)
    (cClusterTasks : List extendedClusterTask) : GoMap :=
  (allPipelineTasks p).foldl (recordStep (missingWorkspaces p cTasks cClusterTasks)) []

/-- Ensures that all the non-optional workspaces that pipelineTasks need are present
in the spec.workspaces of the pipeline. -/
def ValidateWorkspaces (p : extendedPipeline) (cTasks : List extendedTask)
    (cClusterTasks : List extendedClusterTask) : Option String :=
  let m := pTasksWithMissingWorkspaces p cTasks cClusterTasks
  if m.length > 0 then
    some (p.Name ++ " is missing the following workspaces:\n" ++ fmtMap m)
  else none

/-! ## The fixtures of `validate_test.go` and small scenarios -/

/-- Pipeline task `task-a` of `yPipeline`. -/
def testTaskA : PipelineTask :=
  ⟨"task-a", some ⟨"task-a", ""⟩,
    [⟨"param1", .string "$(params.param1)"⟩, ⟨"param2", .string "$(params.param2)"⟩,
     ⟨"param-extra", .string "$(params.param1)-$(params.param2)"⟩,
     ⟨"param-extra-2", .string "some-string"⟩],
    [⟨"ws-a-1", "ws1"⟩, ⟨"ws-a-2", "ws2"⟩]⟩

/-- Pipeline task `task-b` of `yPipeline`. -/
def testTaskB : PipelineTask :=
  ⟨"task-b", some ⟨"task-b", "ClusterTask"⟩,
    [⟨"param3", .array ["$(params.param3)"]⟩], [⟨"ws-b-1", "ws1"⟩]⟩

/-- Pipeline task `task-c` of `yPipeline`: an inline task spec, no reference. -/
def testTaskC : PipelineTask :=
  ⟨"task-c", none, [⟨"param4", .string "$(params.param4)"⟩], []⟩

/-- Pipeline task `task-finally` of `yPipeline`. -/
def testTaskFinally : PipelineTask :=
  ⟨"task-finally", some ⟨"task-finally", ""⟩,
    [⟨"param-finally", .string "$(params.param-finally)"⟩], [⟨"ws-finally", "ws1"⟩]⟩

/-- The pipeline `yPipeline` of the tests. -/
def testPipeline : extendedPipeline :=
  ⟨"test-pipeline",
    ⟨[⟨"param1", none⟩, ⟨"param2", some (.string "param2-default")⟩,
      ⟨"param3", some (.array ["param3-1", "param3-2"])⟩, ⟨"param4", none⟩,
      ⟨"param-finally", none⟩, ⟨"param-not-needed", none⟩],
     [⟨"ws1", false⟩, ⟨"ws-no-needed", false⟩, ⟨"ws2", true⟩],
     [testTaskA, testTaskB, testTaskC], [testTaskFinally]⟩⟩

/-- A task of the catalog with a name only, as in `TestValidateTaskRefs`. -/
def namedTask (n : String) : extendedTask := ⟨n, ⟨[], []⟩⟩

/-- A cluster task of the catalog with a name only, as in `TestValidateTaskRefs`. -/
def namedClusterTask (n : String) : extendedClusterTask := ⟨n, ⟨[], []⟩⟩

/-- A pipeline without declarations whose main list is `pts`. -/
def pipelineOf (n : String) (pts : List PipelineTask) : extendedPipeline :=
  ⟨n, ⟨[], [], pts, []⟩⟩

/-- A pipeline task named like the task it references, without bindings. -/
def refTask (n kind : String) : PipelineTask := ⟨n, some ⟨n, kind⟩, [], []⟩

/-- The tasks of the second case of `TestValidateParams`. -/
def testParamsTasks : List extendedTask :=
  [⟨"task-a", ⟨[⟨"param1", none⟩, ⟨"param2", none⟩, ⟨"param-extra", none⟩,
      ⟨"param-extra-2", none⟩, ⟨"param-missed-1", none⟩,
      ⟨"param-with-default", some (.string "default")⟩], []⟩⟩,
   ⟨"task-finally", ⟨[⟨"param-finally", none⟩, ⟨"param-missed-2", none⟩,
      ⟨"param-missed-3", none⟩, ⟨"param-with-default-f", some (.string "default")⟩], []⟩⟩]

/-- The cluster tasks of the second case of `TestValidateParams`. -/
def testParamsClusterTasks : List extendedClusterTask :=
  [⟨"task-b", ⟨[⟨"param3", none⟩, ⟨"param-missed-3", none⟩,
      ⟨"param-with-default-3", some (.string "default-3")⟩], []⟩⟩]

/-- Scenario A: the task `task-a` requiring param1, param2 and param-missed-1. -/
def scenarioATask : extendedTask :=
  ⟨"task-a", ⟨[⟨"param1", none⟩, ⟨"param2", none⟩, ⟨"param-missed-1", none⟩], []⟩⟩

/-- Scenario A with declarations only: the pipeline declares param1 and param2 in
spec.params and its task `task-a` binds no parameter. -/
def scenarioADeclared : extendedPipeline :=
  ⟨"p", ⟨[⟨"param1", none⟩, ⟨"param2", none⟩], [], [refTask "task-a" ""], []⟩⟩

/-- Scenario A with bindings: the pipeline task `task-a` binds param1 and param2. -/
def scenarioABound : extendedPipeline :=
  ⟨"p", ⟨[⟨"param1", none⟩, ⟨"param2", none⟩], [],
    [⟨"task-a", some ⟨"task-a", ""⟩,
      [⟨"param1", .string "$(params.param1)"⟩, ⟨"param2", .string "$(params.param2)"⟩], []⟩],
    []⟩⟩

/-- A task and a cluster task of one name: the task declares `url` with a default, the
cluster task declares it without. -/
def sameNameTask : extendedTask := ⟨"git-clone", ⟨[⟨"url", some (.string "default")⟩], []⟩⟩

/-- The cluster task named like `sameNameTask`. -/
def sameNameClusterTask : extendedClusterTask := ⟨"git-clone", ⟨[⟨"url", none⟩], []⟩⟩

/-- The tasks of the second case of `TestValidateWorkspaces`. -/
def testWorkspacesTasks : List extendedTask :=
  [⟨"task-a", ⟨[], [⟨"ws-a-1", false⟩, ⟨"ws-a-2", false⟩, ⟨"ws-a-missing", false⟩]⟩⟩,
   ⟨"task-finally", ⟨[], [⟨"ws-finally", false⟩, ⟨"ws-a-missing-finally", false⟩]⟩⟩]

/-- The cluster tasks of the second case of `TestValidateWorkspaces`. -/
def testWorkspacesClusterTasks : List extendedClusterTask :=
  [⟨"task-b", ⟨[], [⟨"ws-b-1", false⟩, ⟨"ws-b-missing", false⟩, ⟨"ws-b-missing-2", false⟩]⟩⟩]

/-! ## Warnings -/

/-- The method `Warnings`: its body is `return nil`. -/
def Warnings (_p : extendedPipeline) (_cTasks : List extendedTask)
    (_cClusterTasks : List extendedClusterTask) : Option String :=
  none

/-! ## More fixtures -/

/-- The tasks of the first case of `TestValidateWorkspaces`. -/
def testValidWorkspacesTasks : List extendedTask :=
  [⟨"task-a", ⟨[], [⟨"ws-a-1", false⟩, ⟨"ws-a-2", false⟩]⟩⟩,
   ⟨"task-finally", ⟨[], [⟨"ws-finally", false⟩]⟩⟩]

/-- The cluster tasks of the first case of `TestValidateWorkspaces`. -/
def testValidWorkspacesClusterTasks : List extendedClusterTask :=
  [⟨"task-b", ⟨[], [⟨"ws-b-1", false⟩]⟩⟩]

/-- A pipeline that declares the workspace `shared`; its task `build` binds `source` to
`shared` and `output` to the undeclared pipeline workspace `source`. -/
def chainedPipeline : extendedPipeline :=
  ⟨"p", ⟨[], [⟨"shared", false⟩],
    [⟨"build", some ⟨"build", ""⟩, [], [⟨"source", "shared"⟩, ⟨"output", "source"⟩]⟩], []⟩⟩

/-- The task `build`: the workspaces `source` and `output` are required. -/
def chainedTask : extendedTask :=
  ⟨"build", ⟨[], [⟨"source", false⟩, ⟨"output", false⟩]⟩⟩

/-- A pipeline without declarations with two pipeline tasks named `t`: the first
references `task-a`, the second `task-b`. -/
def sharedNamePipeline : extendedPipeline :=
  pipelineOf "p" [⟨"t", some ⟨"task-a", ""⟩, [], []⟩, ⟨"t", some ⟨"task-b", ""⟩, [], []⟩]

/-- The catalog for `sharedNamePipeline`: `task-a` requires the workspace `ws-x` and
`task-b` the workspace `ws-y`. -/
def sharedNameTasks : List extendedTask :=
  [⟨"task-a", ⟨[], [⟨"ws-x", false⟩]⟩⟩, ⟨"task-b", ⟨[], [⟨"ws-y", false⟩]⟩⟩]

/-- A task named `git-clone` that declares the workspace `cache` as optional. -/
def optionalCacheTask : extendedTask := ⟨"git-clone", ⟨[], [⟨"cache", true⟩]⟩⟩

/-- A cluster task named `git-clone` that declares the workspace `cache` as required. -/
def requiredCacheClusterTask : extendedClusterTask := ⟨"git-clone", ⟨[], [⟨"cache", false⟩]⟩⟩

/-- A pipeline declaring the workspace `ws1`; its task `t` references `task-o` and binds
`data` to `ws1` and `logs` to the undeclared `ws-undeclared`. -/
def optionalPipeline : extendedPipeline :=
  ⟨"p", ⟨[], [⟨"ws1", false⟩],
    [⟨"t", some ⟨"task-o", ""⟩, [], [⟨"data", "ws1"⟩, ⟨"logs", "ws-undeclared"⟩]⟩], []⟩⟩

/-- The task `task-o`: `data` is required, `logs` and `cache` are optional. -/
def optionalTask : extendedTask :=
  ⟨"task-o", ⟨[], [⟨"data", false⟩, ⟨"logs", true⟩, ⟨"cache", true⟩]⟩⟩

/-- The pipeline `yPipeline` with the optional flag of each workspace declaration inverted. -/
def testPipelineFlipped : extendedPipeline :=
  ⟨testPipeline.Name,
    ⟨testPipeline.Spec.Params, [⟨"ws1", true⟩, ⟨"ws-no-needed", true⟩, ⟨"ws2", false⟩],
     testPipeline.Spec.Tasks, testPipeline.Spec.Finally⟩⟩

/-- A task named `task-b` with a required parameter and a required workspace; the test
pipeline references `task-b` as a cluster task. -/
def otherKindTask : extendedTask :=
  ⟨"task-b", ⟨[⟨"param-q", none⟩], [⟨"ws-q", false⟩]⟩⟩

/-- A task named like the inline pipeline task `task-c`, with a required parameter and a
required workspace. -/
def inlineNameTask : extendedTask :=
  ⟨"task-c", ⟨[⟨"param-x", none⟩], [⟨"ws-x", false⟩]⟩⟩

/-- A task named `x` whose required parameters and workspaces are declared in the order
`b`, `a`. -/
def unsortedTask : extendedTask :=
  ⟨"x", ⟨[⟨"b", none⟩, ⟨"a", none⟩], [⟨"b", false⟩, ⟨"a", false⟩]⟩⟩

/-- A cluster task named `x` like `unsortedTask`; it requires the parameter and the
workspace `a`. -/
def unsortedClusterTask : extendedClusterTask :=
  ⟨"x", ⟨[⟨"a", none⟩], [⟨"a", false⟩]⟩⟩

/-! ## UTF-8 in arithmetic form -/

/-- The UTF-8 encoding of the code point `v` written with division and remainder: one
byte up to 0x7f, two up to 0x7ff, three up to 0xffff, four above. The lemma
`stringBytes_eq_flatMap` shows that `stringBytes` is the concatenation of these. -/
def utf8Nat (v : Nat) : List Nat :=
  if v ≤ 0x7f then [v]
  else if v ≤ 0x7ff then [192 + v / 64 % 32, 128 + v % 64]
  else if v ≤ 0xffff then [224 + v / 4096 % 16, 128 + v / 64 % 64, 128 + v % 64]
  else [240 + v / 262144 % 8, 128 + v / 4096 % 64, 128 + v / 64 % 64, 128 + v % 64]

/-! ## Lemmas on the helpers -/

theorem sliceIncludeString_eq_true_iff (slice : List String) (s : String) :
    sliceIncludeString slice s = true ↔ s ∈ slice := by
  induction slice with
  | nil => simp [sliceIncludeString]
  | cons v rest ih =>
    by_cases h : v = s
    · simp [sliceIncludeString, h]
    · have h2 : ¬ s = v := fun e => h e.symm
      simp [sliceIncludeString, h, h2, ih]

theorem sliceOutliers_eq_filter (bigSlice smallSlice : List String) :
    sliceOutliers bigSlice smallSlice = smallSlice.filter (fun s => decide (s ∉ bigSlice)) := by
  induction smallSlice with
  | nil => rfl
  | cons s rest ih =>
    by_cases h : s ∈ bigSlice
    · have h2 := (sliceIncludeString_eq_true_iff bigSlice s).2 h
      simp [sliceOutliers, h, h2, ih]
    · have h2 : sliceIncludeString bigSlice s = false := by
        rw [← Bool.not_eq_true, sliceIncludeString_eq_true_iff]; exact h
      simp [sliceOutliers, h, h2, ih]

theorem mem_sliceOutliers (bigSlice smallSlice : List String) (s : String) :
    s ∈ sliceOutliers bigSlice smallSlice ↔ s ∈ smallSlice ∧ s ∉ bigSlice := by
  simp [sliceOutliers_eq_filter]

theorem sliceOutliers_eq_nil_iff (bigSlice smallSlice : List String) :
    sliceOutliers bigSlice smallSlice = [] ↔ ∀ s ∈ smallSlice, s ∈ bigSlice := by
  simp [sliceOutliers_eq_filter, List.filter_eq_nil_iff]

/-! ## Lemmas on the byte-wise order and `sort.Strings` -/

theorem bytesLE_total (a b : List Nat) : bytesLE a b = true ∨ bytesLE b a = true := by
  induction a generalizing b with
  | nil => simp [bytesLE]
  | cons x xs ih =>
    cases b with
    | nil => simp [bytesLE]
    | cons y ys =>
      rcases Nat.lt_trichotomy x y with h | h | h
      · simp [bytesLE, h]
      · subst h
        simpa [bytesLE] using ih ys
      · simp [bytesLE, h]

theorem bytesLE_trans (a b c : List Nat) (hab : bytesLE a b = true) (hbc : bytesLE b c = true) :
    bytesLE a c = true := by
  induction a generalizing b c with
  | nil => simp [bytesLE]
  | cons x xs ih =>
    cases b with
    | nil => simp [bytesLE] at hab
    | cons y ys =>
      cases c with
      | nil => simp [bytesLE] at hbc
      | cons z zs =>
        simp only [bytesLE, Bool.or_eq_true, Bool.and_eq_true, decide_eq_true_eq] at hab hbc ⊢
        rcases hab with h1 | ⟨h1, h1r⟩
        · rcases hbc with h2 | ⟨h2, _⟩
          · exact Or.inl (Nat.lt_trans h1 h2)
          · exact Or.inl (h2 ▸ h1)
        · rcases hbc with h2 | ⟨h2, h2r⟩
          · exact Or.inl (h1 ▸ h2)
          · exact Or.inr ⟨h1.trans h2, ih ys zs h1r h2r⟩

instance stringLE_isTotal : IsTotal String stringLE :=
  ⟨fun a b => bytesLE_total (stringBytes a) (stringBytes b)⟩

instance stringLE_isTrans : IsTrans String stringLE :=
  ⟨fun a b c => bytesLE_trans (stringBytes a) (stringBytes b) (stringBytes c)⟩

theorem sortStrings_perm (x : List String) : (sortStrings x).Perm x :=
  List.perm_insertionSort stringLE x

theorem sortStrings_sorted (x : List String) : List.Sorted stringLE (sortStrings x) :=
  List.sorted_insertionSort stringLE x

theorem mem_sortStrings (x : List String) (s : String) : s ∈ sortStrings x ↔ s ∈ x :=
  (sortStrings_perm x).mem_iff

/-! ## Lemmas on `ValidateTaskRefs` -/

theorem mem_pTasksNames (p : extendedPipeline) (n : String) :
    n ∈ pTasksNames p ↔
      ∃ pt ∈ allPipelineTasks p, ∃ r, pt.TaskRef = some r ∧ r.Kind ≠ "ClusterTask" ∧ r.Name = n := by
  unfold pTasksNames
  rw [List.mem_filterMap]
  constructor
  · rintro ⟨pt, hpt, h⟩
    refine ⟨pt, hpt, ?_⟩
    cases hr : pt.TaskRef with
    | none => simp [hr] at h
    | some r =>
      by_cases hk : r.Kind = "ClusterTask"
      · simp [hr, hk] at h
      · simp [hr, hk] at h
        exact ⟨r, rfl, hk, h⟩
  · rintro ⟨pt, hpt, r, hr, hk, hn⟩
    exact ⟨pt, hpt, by simp [hr, hk, hn]⟩

theorem mem_pClusterTasksNames (p : extendedPipeline) (n : String) :
    n ∈ pClusterTasksNames p ↔
      ∃ pt ∈ allPipelineTasks p, ∃ r, pt.TaskRef = some r ∧ r.Kind = "ClusterTask" ∧ r.Name = n := by
  unfold pClusterTasksNames
  rw [List.mem_filterMap]
  constructor
  · rintro ⟨pt, hpt, h⟩
    refine ⟨pt, hpt, ?_⟩
    cases hr : pt.TaskRef with
    | none => simp [hr] at h
    | some r =>
      by_cases hk : r.Kind = "ClusterTask"
      · simp [hr, hk] at h
        exact ⟨r, rfl, hk, h⟩
      · simp [hr, hk] at h
  · rintro ⟨pt, hpt, r, hr, hk, hn⟩
    exact ⟨pt, hpt, by simp [hr, hk, hn]⟩

theorem mem_missingTasks (p : extendedPipeline) (cTasks : List extendedTask)
    (cClusterTasks : List extendedClusterTask) (n : String) :
    n ∈ missingTasks p cTasks cClusterTasks ↔
      ∃ pt ∈ allPipelineTasks p, ∃ r, pt.TaskRef = some r ∧ r.Name = n ∧
        ((r.Kind = "ClusterTask" ∧ ∀ ct ∈ cClusterTasks, ct.Name ≠ n) ∨
         (r.Kind ≠ "ClusterTask" ∧ ∀ t ∈ cTasks, t.Name ≠ n)) := by
  unfold missingTasks
  rw [List.mem_append, mem_sliceOutliers, mem_sliceOutliers, mem_pTasksNames,
    mem_pClusterTasksNames]
  constructor
  · rintro (⟨⟨pt, hpt, r, hr, hk, hn⟩, hno⟩ | ⟨⟨pt, hpt, r, hr, hk, hn⟩, hno⟩)
    · refine ⟨pt, hpt, r, hr, hn, Or.inr ⟨hk, ?_⟩⟩
      intro t ht e
      exact hno (List.mem_map.2 ⟨t, ht, e⟩)
    · refine ⟨pt, hpt, r, hr, hn, Or.inl ⟨hk, ?_⟩⟩
      intro t ht e
      exact hno (List.mem_map.2 ⟨t, ht, e⟩)
  · rintro ⟨pt, hpt, r, hr, hn, (⟨hk, hno⟩ | ⟨hk, hno⟩)⟩
    · refine Or.inr ⟨⟨pt, hpt, r, hr, hk, hn⟩, ?_⟩
      intro hmem
      obtain ⟨t, ht, e⟩ := List.mem_map.1 hmem
      exact hno t ht e
    · refine Or.inl ⟨⟨pt, hpt, r, hr, hk, hn⟩, ?_⟩
      intro hmem
      obtain ⟨t, ht, e⟩ := List.mem_map.1 hmem
      exact hno t ht e

theorem validateTaskRefs_of_nil (p : extendedPipeline) (cTasks : List extendedTask)
    (cClusterTasks : List extendedClusterTask)
    (h : missingTasks p cTasks cClusterTasks = []) :
    ValidateTaskRefs p cTasks cClusterTasks = none := by
  simp [ValidateTaskRefs, h]

theorem validateTaskRefs_of_ne_nil (p : extendedPipeline) (cTasks : List extendedTask)
    (cClusterTasks : List extendedClusterTask)
    (h : missingTasks p cTasks cClusterTasks ≠ []) :
    ValidateTaskRefs p cTasks cClusterTasks =
      some (taskRefsMessage p.Name (sortStrings (missingTasks p cTasks cClusterTasks))) := by
  have hpos : 0 < (missingTasks p cTasks cClusterTasks).length := List.length_pos.2 h
  simp [ValidateTaskRefs, hpos]

theorem missingTasks_ne_nil_of_error (p : extendedPipeline) (cTasks : List extendedTask)
    (cClusterTasks : List extendedClusterTask)
    (h : ValidateTaskRefs p cTasks cClusterTasks ≠ none) :
    missingTasks p cTasks cClusterTasks ≠ [] := fun e =>
  h (validateTaskRefs_of_nil p cTasks cClusterTasks e)

/-! ## Lemmas on the map and on the recording loops -/

theorem mapGet_mapSet_self (m : GoMap) (k : String) (v : List String) :
    mapGet (mapSet m k v) k = some v := by
  induction m with
  | nil => simp [mapSet, mapGet]
  | cons kv rest ih =>
    obtain ⟨k1, v1⟩ := kv
    by_cases h : k1 = k
    · simp [mapSet, mapGet, h]
    · simp [mapSet, mapGet, h, ih]

theorem mapGet_mapSet_ne (m : GoMap) (k k2 : String) (v : List String) (hne : k2 ≠ k) :
    mapGet (mapSet m k v) k2 = mapGet m k2 := by
  have h2 : ¬ k = k2 := fun e => hne e.symm
  induction m with
  | nil => simp [mapSet, mapGet, h2]
  | cons kv rest ih =>
    obtain ⟨k1, v1⟩ := kv
    by_cases h : k1 = k
    · have h3 : ¬ k1 = k2 := fun e => hne (e.symm.trans h)
      simp [mapSet, mapGet, h, h2, h3]
    · by_cases h4 : k1 = k2
      · subst h4
        simp [mapSet, mapGet, h]
      · simp [mapSet, mapGet, h, h4, ih]

theorem mapSet_ne_nil (m : GoMap) (k : String) (v : List String) : mapSet m k v ≠ [] := by
  cases m with
  | nil => simp [mapSet]
  | cons kv rest =>
    obtain ⟨k1, v1⟩ := kv
    by_cases h : k1 = k <;> simp [mapSet, h]

theorem recordStep_of_nil (miss : PipelineTask → List String) (m : GoMap) (pt : PipelineTask)
    (h : miss pt = []) : recordStep miss m pt = m := by
  simp [recordStep, h]

theorem recordStep_of_ne_nil (miss : PipelineTask → List String) (m : GoMap)
    (pt : PipelineTask) (h : miss pt ≠ []) :
    recordStep miss m pt = mapSet m pt.Name (miss pt) := by
  have hpos : 0 < (miss pt).length := List.length_pos.2 h
  have : ¬ (miss pt).length < 1 := by omega
  simp [recordStep, this]

theorem mapGet_recordStep_ne (miss : PipelineTask → List String) (m : GoMap)
    (pt : PipelineTask) (k : String) (hne : k ≠ pt.Name) :
    mapGet (recordStep miss m pt) k = mapGet m k := by
  by_cases h : miss pt = []
  · rw [recordStep_of_nil miss m pt h]
  · rw [recordStep_of_ne_nil miss m pt h, mapGet_mapSet_ne m pt.Name k (miss pt) hne]

theorem mapGet_recordStep_self (miss : PipelineTask → List String) (m : GoMap)
    (pt : PipelineTask) :
    mapGet (recordStep miss m pt) pt.Name =
      if miss pt = [] then mapGet m pt.Name else some (miss pt) := by
  by_cases h : miss pt = []
  · rw [recordStep_of_nil miss m pt h, if_pos h]
  · rw [recordStep_of_ne_nil miss m pt h, mapGet_mapSet_self, if_neg h]

theorem mapGet_foldl_of_not_mem (miss : PipelineTask → List String) (pts : List PipelineTask)
    (m : GoMap) (k : String) (hk : ∀ pt ∈ pts, pt.Name ≠ k) :
    mapGet (pts.foldl (recordStep miss) m) k = mapGet m k := by
  induction pts generalizing m with
  | nil => rfl
  | cons x xs ih =>
    rw [List.foldl_cons, ih _ (fun pt hpt => hk pt (List.mem_cons_of_mem _ hpt)),
      mapGet_recordStep_ne miss m x k (fun e => hk x (List.mem_cons_self _ _) e.symm)]

theorem mapGet_foldl_of_nodup (miss : PipelineTask → List String) (pts : List PipelineTask)
    (m : GoMap) (hnd : (pts.map (·.Name)).Nodup) (pt : PipelineTask) (hpt : pt ∈ pts) :
    mapGet (pts.foldl (recordStep miss) m) pt.Name =
      if miss pt = [] then mapGet m pt.Name else some (miss pt) := by
  induction pts generalizing m with
  | nil => simp at hpt
  | cons x xs ih =>
    rw [List.map_cons, List.nodup_cons] at hnd
    rw [List.foldl_cons]
    rcases List.mem_cons.1 hpt with rfl | hmem
    · rw [mapGet_foldl_of_not_mem miss xs _ pt.Name, mapGet_recordStep_self]
      intro y hy e
      exact hnd.1 (List.mem_map.2 ⟨y, hy, e⟩)
    · rw [ih _ hnd.2 hmem]
      have hne : pt.Name ≠ x.Name := by
        intro e
        exact hnd.1 (List.mem_map.2 ⟨pt, hmem, e⟩)
      rw [mapGet_recordStep_ne miss m x pt.Name hne]

theorem mapGet_foldl_some (miss : PipelineTask → List String) (pts : List PipelineTask)
    (m : GoMap) (k : String) (l : List String)
    (h : mapGet (pts.foldl (recordStep miss) m) k = some l) :
    mapGet m k = some l ∨ ∃ pt ∈ pts, pt.Name = k ∧ miss pt = l ∧ l ≠ [] := by
  induction pts generalizing m with
  | nil => exact Or.inl h
  | cons x xs ih =>
    rw [List.foldl_cons] at h
    rcases ih _ h with h1 | ⟨pt, hpt, hn, hm, hl⟩
    · by_cases hk : k = x.Name
      · subst hk
        rw [mapGet_recordStep_self] at h1
        by_cases hx : miss x = []
        · rw [if_pos hx] at h1
          exact Or.inl h1
        · rw [if_neg hx] at h1
          have e : miss x = l := Option.some.inj h1
          exact Or.inr ⟨x, List.mem_cons_self _ _, rfl, e, e ▸ hx⟩
      · rw [mapGet_recordStep_ne miss m x k hk] at h1
        exact Or.inl h1
    · exact Or.inr ⟨pt, List.mem_cons_of_mem _ hpt, hn, hm, hl⟩

theorem foldl_recordStep_eq_nil_iff (miss : PipelineTask → List String)
    (pts : List PipelineTask) (m : GoMap) :
    pts.foldl (recordStep miss) m = [] ↔ m = [] ∧ ∀ pt ∈ pts, miss pt = [] := by
  induction pts generalizing m with
  | nil => simp
  | cons x xs ih =>
    rw [List.foldl_cons, ih]
    by_cases hx : miss x = []
    · rw [recordStep_of_nil miss m x hx]
      simp [hx]
    · rw [recordStep_of_ne_nil miss m x hx]
      simp [hx, mapSet_ne_nil]

theorem mapGet_foldl_ne_none (miss : PipelineTask → List String) (pts : List PipelineTask)
    (m : GoMap) (k : String) (h : mapGet m k ≠ none) :
    mapGet (pts.foldl (recordStep miss) m) k ≠ none := by
  induction pts generalizing m with
  | nil => exact h
  | cons x xs ih =>
    rw [List.foldl_cons]
    apply ih
    by_cases hk : k = x.Name
    · subst hk
      rw [mapGet_recordStep_self]
      by_cases hx : miss x = []
      · rw [if_pos hx]; exact h
      · rw [if_neg hx]; exact Option.some_ne_none _
    · rw [mapGet_recordStep_ne miss m x k hk]; exact h

theorem mapGet_foldl_ne_none_of_mem (miss : PipelineTask → List String)
    (pts : List PipelineTask) (m : GoMap) (pt : PipelineTask) (hpt : pt ∈ pts)
    (hne : miss pt ≠ []) :
    mapGet (pts.foldl (recordStep miss) m) pt.Name ≠ none := by
  induction pts generalizing m with
  | nil => simp at hpt
  | cons x xs ih =>
    rw [List.foldl_cons]
    rcases List.mem_cons.1 hpt with rfl | hmem
    · apply mapGet_foldl_ne_none
      rw [mapGet_recordStep_self, if_neg hne]
      exact Option.some_ne_none _
    · exact ih _ hmem

/-! ## Lemmas on `ValidateParams` -/

theorem mem_requiredParams (pt : PipelineTask) (ct : allTasks) (q : String) :
    q ∈ requiredParams pt ct ↔
      ∃ r, pt.TaskRef = some r ∧ ct.getName = r.Name ∧
        ∃ cp ∈ ct.getParams, cp.Default = none ∧ cp.Name = q := by
  unfold requiredParams
  cases hr : pt.TaskRef with
  | none => simp
  | some r =>
    by_cases hn : ct.getName = r.Name
    · simp [hn, and_assoc]
    · simp [hn]

theorem mem_requiredParamsList (pt : PipelineTask) (cTasks : List extendedTask)
    (cClusterTasks : List extendedClusterTask) (q : String) :
    q ∈ requiredParamsList pt cTasks cClusterTasks ↔
      ∃ r, pt.TaskRef = some r ∧ ∃ e ∈ allclusterTasks cTasks cClusterTasks,
        e.getName = r.Name ∧ ∃ cp ∈ e.getParams, cp.Default = none ∧ cp.Name = q := by
  unfold requiredParamsList
  rw [List.mem_flatMap]
  constructor
  · rintro ⟨e, he, hq⟩
    obtain ⟨r, hr, hn, hcp⟩ := (mem_requiredParams pt e q).1 hq
    exact ⟨r, hr, e, he, hn, hcp⟩
  · rintro ⟨r, hr, e, he, hn, hcp⟩
    exact ⟨e, he, (mem_requiredParams pt e q).2 ⟨r, hr, hn, hcp⟩⟩

theorem mem_pParamNames (p : extendedPipeline) (q : String) :
    q ∈ pParamNames p ↔
      ∃ pt ∈ p.Spec.Tasks ++ p.Spec.Finally, ∃ b ∈ pt.Params, b.Name = q := by
  unfold pParamNames allPipelineTasks
  simp only [List.mem_flatMap, List.mem_map]

theorem mem_missingParams (p : extendedPipeline) (cTasks : List extendedTask)
    (cClusterTasks : List extendedClusterTask) (pt : PipelineTask) (q : String) :
    q ∈ missingParams p cTasks cClusterTasks pt ↔
      q ∈ requiredParamsList pt cTasks cClusterTasks ∧ q ∉ pParamNames p := by
  unfold missingParams
  exact mem_sliceOutliers _ _ _

theorem validateParams_none_iff_nil (p : extendedPipeline) (cTasks : List extendedTask)
    (cClusterTasks : List extendedClusterTask) :
    ValidateParams p cTasks cClusterTasks = none ↔
      pTasksWithMissingParams p cTasks cClusterTasks = [] := by
  unfold ValidateParams
  cases h : pTasksWithMissingParams p cTasks cClusterTasks with
  | nil => simp
  | cons kv rest => simp

/-! ## Lemmas on `ValidateWorkspaces` -/

theorem requiredWorkspaces_of_ne (pt : PipelineTask) (r : TaskRef) (hr : pt.TaskRef = some r)
    (ct : allTasks) (hne : ct.getName ≠ r.Name) : requiredWorkspaces pt ct = [] := by
  simp [requiredWorkspaces, hr, hne]

theorem requiredWorkspaces_of_none (pt : PipelineTask) (hr : pt.TaskRef = none)
    (ct : allTasks) : requiredWorkspaces pt ct = [] := by
  simp [requiredWorkspaces, hr]

theorem requiredWorkspaces_of_eq (pt : PipelineTask) (r : TaskRef) (hr : pt.TaskRef = some r)
    (ct : allTasks) (hname : ct.getName = r.Name) :
    requiredWorkspaces pt ct =
      ((ct.getWorkspaces.filter fun ws => !ws.Optional).map (·.Name)).filter
          (fun n => decide (n ∉ pt.Workspaces.map (·.Name))) ++
        pt.Workspaces.map fun w => if w.Workspace = "" then w.Name else w.Workspace := by
  simp [requiredWorkspaces, hr, hname, sliceOutliers_eq_filter]

theorem flatMap_requiredWorkspaces_of_no_match (pt : PipelineTask) (r : TaskRef)
    (hr : pt.TaskRef = some r) (cat : List allTasks) (hno : ∀ y ∈ cat, y.getName ≠ r.Name) :
    cat.flatMap (fun ct => requiredWorkspaces pt ct) = [] := by
  induction cat with
  | nil => rfl
  | cons x xs ih =>
    rw [List.flatMap_cons, requiredWorkspaces_of_ne pt r hr x (hno x (List.mem_cons_self _ _)),
      ih (fun y hy => hno y (List.mem_cons_of_mem _ hy))]
    rfl

theorem flatMap_requiredWorkspaces_of_unique (pt : PipelineTask) (r : TaskRef)
    (hr : pt.TaskRef = some r) (cat : List allTasks) (hnd : (cat.map allTasks.getName).Nodup)
    (e : allTasks) (he : e ∈ cat) (hname : e.getName = r.Name) :
    cat.flatMap (fun ct => requiredWorkspaces pt ct) = requiredWorkspaces pt e := by
  induction cat with
  | nil => simp at he
  | cons x xs ih =>
    rw [List.map_cons, List.nodup_cons] at hnd
    rw [List.flatMap_cons]
    rcases List.mem_cons.1 he with rfl | hmem
    · rw [flatMap_requiredWorkspaces_of_no_match pt r hr xs, List.append_nil]
      intro y hy e2
      exact hnd.1 (List.mem_map.2 ⟨y, hy, e2.trans hname.symm⟩)
    · have hx : x.getName ≠ r.Name := by
        intro e2
        exact hnd.1 (List.mem_map.2 ⟨e, hmem, hname.trans e2.symm⟩)
      rw [requiredWorkspaces_of_ne pt r hr x hx, ih hnd.2 hmem, List.nil_append]

theorem validateWorkspaces_none_iff_nil (p : extendedPipeline) (cTasks : List extendedTask)
    (cClusterTasks : List extendedClusterTask) :
    ValidateWorkspaces p cTasks cClusterTasks = none ↔
      pTasksWithMissingWorkspaces p cTasks cClusterTasks = [] := by
  unfold ValidateWorkspaces
  cases h : pTasksWithMissingWorkspaces p cTasks cClusterTasks with
  | nil => simp
  | cons kv rest => simp

/-! ## ValidateTaskRefs: claims -/

/-- C1: `ValidateTaskRefs` returns no error exactly when every pipeline task of the main
and finally lists that carries a reference resolves under its kind: a reference of kind
"ClusterTask" names some cluster task, a reference of any other kind names some task. -/
theorem validateTaskRefs_none_iff_resolved (p : extendedPipeline) (cTasks : List extendedTask)
    (cClusterTasks : List extendedClusterTask) :
    ValidateTaskRefs p cTasks cClusterTasks = none ↔
      ∀ pt ∈ p.Spec.Tasks ++ p.Spec.Finally, ∀ r, pt.TaskRef = some r →
        if r.Kind = "ClusterTask" then ∃ ct ∈ cClusterTasks, ct.Name = r.Name
        else ∃ t ∈ cTasks, t.Name = r.Name := by
  constructor
  · intro h pt hpt r hr
    have hnil : missingTasks p cTasks cClusterTasks = [] := by
      by_contra hne
      rw [validateTaskRefs_of_ne_nil p cTasks cClusterTasks hne] at h
      exact Option.some_ne_none _ h
    have hno : r.Name ∉ missingTasks p cTasks cClusterTasks := by simp [hnil]
    rw [mem_missingTasks] at hno
    by_cases hk : r.Kind = "ClusterTask"
    · rw [if_pos hk]
      by_contra hex
      exact hno ⟨pt, hpt, r, hr, rfl, Or.inl ⟨hk, fun ct hct e => hex ⟨ct, hct, e⟩⟩⟩
    · rw [if_neg hk]
      by_contra hex
      exact hno ⟨pt, hpt, r, hr, rfl, Or.inr ⟨hk, fun t ht e => hex ⟨t, ht, e⟩⟩⟩
  · intro h
    apply validateTaskRefs_of_nil
    apply List.eq_nil_iff_forall_not_mem.2
    intro n hn
    obtain ⟨pt, hpt, r, hr, hrn, hcase⟩ := (mem_missingTasks p cTasks cClusterTasks n).1 hn
    have hres := h pt hpt r hr
    rcases hcase with ⟨hk, hno⟩ | ⟨hk, hno⟩
    · rw [if_pos hk] at hres
      obtain ⟨ct, hct, e⟩ := hres
      exact hno ct hct (e.trans hrn)
    · rw [if_neg hk] at hres
      obtain ⟨t, ht, e⟩ := hres
      exact hno t ht (e.trans hrn)

/-- C2: when `ValidateTaskRefs` returns an error, the error carries the sorted missing
list, and a name is in that list exactly when some pipeline task references it with kind
"ClusterTask" and no cluster task has the name, or with another kind and no task has it. -/
theorem validateTaskRefs_missing_iff (p : extendedPipeline) (cTasks : List extendedTask)
    (cClusterTasks : List extendedClusterTask)
    (herr : ValidateTaskRefs p cTasks cClusterTasks ≠ none) :
    ValidateTaskRefs p cTasks cClusterTasks =
        some (taskRefsMessage p.Name (sortStrings (missingTasks p cTasks cClusterTasks))) ∧
      ∀ n, n ∈ sortStrings (missingTasks p cTasks cClusterTasks) ↔
        ∃ pt ∈ p.Spec.Tasks ++ p.Spec.Finally, ∃ r, pt.TaskRef = some r ∧ r.Name = n ∧
          ((r.Kind = "ClusterTask" ∧ ∀ ct ∈ cClusterTasks, ct.Name ≠ n) ∨
           (r.Kind ≠ "ClusterTask" ∧ ∀ t ∈ cTasks, t.Name ≠ n)) := by
  refine ⟨validateTaskRefs_of_ne_nil p cTasks cClusterTasks
    (missingTasks_ne_nil_of_error p cTasks cClusterTasks herr), ?_⟩
  intro n
  rw [mem_sortStrings]
  exact mem_missingTasks p cTasks cClusterTasks n

/-- Witness of C2: the third case of `TestValidateTaskRefs` (no tasks, cluster task `task-a`). -/
theorem validateTaskRefs_missing_iff_witness :
    ValidateTaskRefs testPipeline [] [namedClusterTask "task-a"] ≠ none ∧
    (ValidateTaskRefs testPipeline [] [namedClusterTask "task-a"] =
        some (taskRefsMessage testPipeline.Name
          (sortStrings (missingTasks testPipeline [] [namedClusterTask "task-a"]))) ∧
      ∀ n, n ∈ sortStrings (missingTasks testPipeline [] [namedClusterTask "task-a"]) ↔
        ∃ pt ∈ testPipeline.Spec.Tasks ++ testPipeline.Spec.Finally, ∃ r,
          pt.TaskRef = some r ∧ r.Name = n ∧
          ((r.Kind = "ClusterTask" ∧ ∀ ct ∈ [namedClusterTask "task-a"], ct.Name ≠ n) ∨
           (r.Kind ≠ "ClusterTask" ∧ ∀ t ∈ ([] : List extendedTask), t.Name ≠ n))) :=
  ⟨by decide, validateTaskRefs_missing_iff testPipeline [] [namedClusterTask "task-a"] (by decide)⟩

theorem count_missing_aux (A B : List String) (n : String) (pts : List PipelineTask) :
    (sliceOutliers A (pts.filterMap fun t =>
        match t.TaskRef with
        | some r => if r.Kind = "ClusterTask" then none else some r.Name
        | none => none)).count n +
      (sliceOutliers B (pts.filterMap fun t =>
        match t.TaskRef with
        | some r => if r.Kind = "ClusterTask" then some r.Name else none
        | none => none)).count n =
    pts.countP fun pt =>
      match pt.TaskRef with
      | some r =>
        decide (r.Name = n) &&
          (if r.Kind = "ClusterTask" then decide (n ∉ B) else decide (n ∉ A))
      | none => false := by
  induction pts with
  | nil => simp [sliceOutliers]
  | cons pt rest ih =>
    rw [List.countP_cons, ← ih]
    cases hr : pt.TaskRef with
    | none => simp [List.filterMap_cons, hr]
    | some r =>
      by_cases hk : r.Kind = "ClusterTask"
      · by_cases hn : r.Name = n
        · by_cases hB : n ∈ B
          · simp [List.filterMap_cons, hr, hk, sliceOutliers_eq_filter, List.filter_cons, hn, hB]
          · simp [List.filterMap_cons, hr, hk, sliceOutliers_eq_filter, List.filter_cons, hn, hB]
            omega
        · by_cases hB : r.Name ∈ B
          · simp [List.filterMap_cons, hr, hk, sliceOutliers_eq_filter, List.filter_cons, hn, hB]
          · simp [List.filterMap_cons, hr, hk, sliceOutliers_eq_filter, List.filter_cons, hn, hB,
              List.count_cons]
      · by_cases hn : r.Name = n
        · by_cases hA : n ∈ A
          · simp [List.filterMap_cons, hr, hk, sliceOutliers_eq_filter, List.filter_cons, hn, hA]
          · simp [List.filterMap_cons, hr, hk, sliceOutliers_eq_filter, List.filter_cons, hn, hA]
            omega
        · by_cases hA : r.Name ∈ A
          · simp [List.filterMap_cons, hr, hk, sliceOutliers_eq_filter, List.filter_cons, hn, hA]
          · simp [List.filterMap_cons, hr, hk, sliceOutliers_eq_filter, List.filter_cons, hn, hA,
              List.count_cons]

theorem bytesLE_iff_lex (a b : List Nat) :
    bytesLE a b = true ↔ a = b ∨ List.Lex (· < ·) a b := by
  induction a generalizing b with
  | nil =>
    cases b with
    | nil => simp [bytesLE]
    | cons y ys => simp [bytesLE, List.Lex.nil]
  | cons x xs ih =>
    cases b with
    | nil => simp [bytesLE]
    | cons y ys =>
      simp only [bytesLE, Bool.or_eq_true, Bool.and_eq_true, decide_eq_true_eq, ih ys,
        List.cons.injEq]
      constructor
      · rintro (h | ⟨h, (h2 | h2)⟩)
        · exact Or.inr (List.Lex.rel h)
        · exact Or.inl ⟨h, h2⟩
        · subst h
          exact Or.inr (List.Lex.cons h2)
      · rintro (⟨h, h2⟩ | h)
        · exact Or.inr ⟨h, Or.inl h2⟩
        · cases h with
          | cons h2 => exact Or.inr ⟨rfl, Or.inr h2⟩
          | rel h2 => exact Or.inl h2

theorem fmtElems_cons_cons (s t : String) (rest : List String) :
    fmtElems (s :: t :: rest) = s ++ " " ++ fmtElems (t :: rest) := rfl

theorem intercalate_go_eq (acc : String) (l : List String) :
    String.intercalate.go acc " " l =
      match l with
      | [] => acc
      | _ :: _ => acc ++ " " ++ fmtElems l := by
  induction l generalizing acc with
  | nil => rfl
  | cons a as ih =>
    rw [String.intercalate.go, ih]
    cases as with
    | nil => rfl
    | cons b bs => simp only [fmtElems_cons_cons, String.append_assoc]

theorem fmtElems_eq_intercalate (l : List String) : fmtElems l = " ".intercalate l := by
  cases l with
  | nil => rfl
  | cons a as =>
    rw [String.intercalate, intercalate_go_eq]
    cases as with
    | nil => rfl
    | cons b bs => simp only [fmtElems_cons_cons, String.append_assoc]

/-- Counterexample to C3: two pipeline tasks reference the absent task `task-x`; the
reported list holds the name twice. -/
theorem validateTaskRefs_dedup_counterexample :
    ValidateTaskRefs
        (pipelineOf "p" [⟨"first", some ⟨"task-x", ""⟩, [], []⟩,
          ⟨"second", some ⟨"task-x", ""⟩, [], []⟩]) [] [] =
      some ("The following tasks/clusterTasks are used in p pipeline but do not exist " ++
        "in the cluster: [task-x task-x]") ∧
    (sortStrings (missingTasks
        (pipelineOf "p" [⟨"first", some ⟨"task-x", ""⟩, [], []⟩,
          ⟨"second", some ⟨"task-x", ""⟩, [], []⟩]) [] [])).count "task-x" = 2 := by
  decide

/-- C3 (amended): a name occurs in the missing list reported by `ValidateTaskRefs` once for
each pipeline task (main or finally list) that references it without a catalog entry of
the referenced kind; the list is not de-duplicated. -/
theorem validateTaskRefs_count_eq (p : extendedPipeline) (cTasks : List extendedTask)
    (cClusterTasks : List extendedClusterTask) (n : String) :
    (sortStrings (missingTasks p cTasks cClusterTasks)).count n =
      (p.Spec.Tasks ++ p.Spec.Finally).countP fun pt =>
        match pt.TaskRef with
        | some r =>
          decide (r.Name = n) &&
            (if r.Kind = "ClusterTask" then decide (n ∉ cClusterTasks.map (·.Name))
             else decide (n ∉ cTasks.map (·.Name)))
        | none => false := by
  rw [(sortStrings_perm _).count_eq, missingTasks, List.count_append]
  exact count_missing_aux (cTasks.map (·.Name)) (cClusterTasks.map (·.Name)) n
    (p.Spec.Tasks ++ p.Spec.Finally)

/-- C4: when `ValidateTaskRefs` returns an error, the list in its message is in ascending
byte-wise order and is a rearrangement of the missing task names followed by the missing
cluster-task names: both kinds are merged into the one sorted list. -/
theorem validateTaskRefs_sorted (p : extendedPipeline) (cTasks : List extendedTask)
    (cClusterTasks : List extendedClusterTask)
    (herr : ValidateTaskRefs p cTasks cClusterTasks ≠ none) :
    ∃ l, ValidateTaskRefs p cTasks cClusterTasks = some (taskRefsMessage p.Name l) ∧
      List.Pairwise (fun a b => stringBytes a = stringBytes b ∨
        List.Lex (· < ·) (stringBytes a) (stringBytes b)) l ∧
      l.Perm (sliceOutliers (cTasks.map (·.Name)) (pTasksNames p) ++
        sliceOutliers (cClusterTasks.map (·.Name)) (pClusterTasksNames p)) := by
  refine ⟨sortStrings (missingTasks p cTasks cClusterTasks),
    validateTaskRefs_of_ne_nil p cTasks cClusterTasks
      (missingTasks_ne_nil_of_error p cTasks cClusterTasks herr), ?_, sortStrings_perm _⟩
  refine (sortStrings_sorted (missingTasks p cTasks cClusterTasks)).imp ?_
  intro a b hab
  exact (bytesLE_iff_lex _ _).1 hab

/-- Witness of C4: the second case of `TestValidateTaskRefs` with the kinds swapped. -/
theorem validateTaskRefs_sorted_witness :
    ValidateTaskRefs testPipeline [namedTask "task-a", namedTask "task-b"]
        [namedClusterTask "task-finally", namedClusterTask "task-zzz"] ≠ none ∧
    ∃ l, ValidateTaskRefs testPipeline [namedTask "task-a", namedTask "task-b"]
          [namedClusterTask "task-finally", namedClusterTask "task-zzz"] =
        some (taskRefsMessage testPipeline.Name l) ∧
      List.Pairwise (fun a b => stringBytes a = stringBytes b ∨
        List.Lex (· < ·) (stringBytes a) (stringBytes b)) l ∧
      l.Perm (sliceOutliers ([namedTask "task-a", namedTask "task-b"].map (·.Name))
          (pTasksNames testPipeline) ++
        sliceOutliers ([namedClusterTask "task-finally", namedClusterTask "task-zzz"].map
          (·.Name)) (pClusterTasksNames testPipeline)) :=
  ⟨by decide, validateTaskRefs_sorted testPipeline [namedTask "task-a", namedTask "task-b"]
    [namedClusterTask "task-finally", namedClusterTask "task-zzz"] (by decide)⟩

theorem validateTaskRefs_text_of_ne_nil (p : extendedPipeline) (cTasks : List extendedTask)
    (cClusterTasks : List extendedClusterTask)
    (hne : missingTasks p cTasks cClusterTasks ≠ []) :
    ValidateTaskRefs p cTasks cClusterTasks =
      some ("The following tasks/clusterTasks are used in " ++ p.Name ++
        " pipeline but do not exist in the cluster: " ++ "[" ++
        " ".intercalate (sortStrings (missingTasks p cTasks cClusterTasks)) ++ "]") := by
  rw [validateTaskRefs_of_ne_nil p cTasks cClusterTasks hne, taskRefsMessage, fmtStrings,
    fmtElems_eq_intercalate]
  simp only [String.append_assoc]

/-- C5: a kind mismatch counts as absent. A pipeline task that references a name with kind
"ClusterTask" while only a task carries the name, or with another kind while only a
cluster task carries it, makes `ValidateTaskRefs` return the error whose text lists the
sorted missing slice, and the name is an element of that slice. -/
theorem validateTaskRefs_kind_mismatch (p : extendedPipeline) (cTasks : List extendedTask)
    (cClusterTasks : List extendedClusterTask) (pt : PipelineTask) (r : TaskRef)
    (hpt : pt ∈ p.Spec.Tasks ++ p.Spec.Finally) (hr : pt.TaskRef = some r)
    (hmismatch :
      (r.Kind = "ClusterTask" ∧ (∃ t ∈ cTasks, t.Name = r.Name) ∧
        ∀ ct ∈ cClusterTasks, ct.Name ≠ r.Name) ∨
      (r.Kind ≠ "ClusterTask" ∧ (∃ ct ∈ cClusterTasks, ct.Name = r.Name) ∧
        ∀ t ∈ cTasks, t.Name ≠ r.Name)) :
    ValidateTaskRefs p cTasks cClusterTasks =
        some ("The following tasks/clusterTasks are used in " ++ p.Name ++
          " pipeline but do not exist in the cluster: " ++ "[" ++
          " ".intercalate (sortStrings (missingTasks p cTasks cClusterTasks)) ++ "]") ∧
      r.Name ∈ sortStrings (missingTasks p cTasks cClusterTasks) := by
  have hmem : r.Name ∈ missingTasks p cTasks cClusterTasks := by
    rw [mem_missingTasks]
    refine ⟨pt, hpt, r, hr, rfl, ?_⟩
    rcases hmismatch with ⟨hk, _, hno⟩ | ⟨hk, _, hno⟩
    · exact Or.inl ⟨hk, hno⟩
    · exact Or.inr ⟨hk, hno⟩
  refine ⟨validateTaskRefs_text_of_ne_nil p cTasks cClusterTasks (List.ne_nil_of_mem hmem), ?_⟩
  rw [mem_sortStrings]
  exact hmem

/-- Witness of C5: scenario B, `task-b` referenced as a cluster task while the catalog
has only a task of that name; the reported slice is `task-b` alone. -/
theorem validateTaskRefs_kind_mismatch_witness :
    sortStrings (missingTasks (pipelineOf "p" [refTask "task-b" "ClusterTask"])
      [namedTask "task-b"] []) = ["task-b"] ∧
    (ValidateTaskRefs (pipelineOf "p" [refTask "task-b" "ClusterTask"])
        [namedTask "task-b"] [] =
      some ("The following tasks/clusterTasks are used in " ++
          (pipelineOf "p" [refTask "task-b" "ClusterTask"]).Name ++
          " pipeline but do not exist in the cluster: " ++ "[" ++
          " ".intercalate (sortStrings (missingTasks
            (pipelineOf "p" [refTask "task-b" "ClusterTask"]) [namedTask "task-b"] [])) ++
          "]") ∧
      (⟨"task-b", "ClusterTask"⟩ : TaskRef).Name ∈
        sortStrings (missingTasks (pipelineOf "p" [refTask "task-b" "ClusterTask"])
          [namedTask "task-b"] [])) :=
  ⟨by decide,
    validateTaskRefs_kind_mismatch (pipelineOf "p" [refTask "task-b" "ClusterTask"])
      [namedTask "task-b"] [] (refTask "task-b" "ClusterTask") ⟨"task-b", "ClusterTask"⟩
      (by decide) rfl (Or.inl ⟨rfl, ⟨namedTask "task-b", by decide, rfl⟩, by simp⟩)⟩

/-- C6: with a non-empty missing list, the error of `ValidateTaskRefs` is exactly the fixed
text around the pipeline name, followed by the sorted names separated by single spaces
between square brackets; the second case of `TestValidateTaskRefs` gives `[task-a]`. -/
theorem validateTaskRefs_message (p : extendedPipeline) (cTasks : List extendedTask)
    (cClusterTasks : List extendedClusterTask)
    (hne : missingTasks p cTasks cClusterTasks ≠ []) :
    ValidateTaskRefs p cTasks cClusterTasks =
        some ("The following tasks/clusterTasks are used in " ++ p.Name ++
          " pipeline but do not exist in the cluster: " ++ "[" ++
          " ".intercalate (sortStrings (missingTasks p cTasks cClusterTasks)) ++ "]") ∧
      ValidateTaskRefs testPipeline [namedTask "task-finally", namedTask "task-z"]
          [namedClusterTask "task-b", namedClusterTask "task-zzz"] =
        some ("The following tasks/clusterTasks are used in test-pipeline pipeline " ++
          "but do not exist in the cluster: [task-a]") := by
  refine ⟨?_, by decide⟩
  rw [validateTaskRefs_of_ne_nil p cTasks cClusterTasks hne, taskRefsMessage, fmtStrings,
    fmtElems_eq_intercalate]
  simp only [String.append_assoc]

/-- Witness of C6: the fourth case of `TestValidateTaskRefs`, three missing names. -/
theorem validateTaskRefs_message_witness :
    missingTasks testPipeline [] [namedClusterTask "task-a"] ≠ [] ∧
    ValidateTaskRefs testPipeline [] [namedClusterTask "task-a"] =
      some ("The following tasks/clusterTasks are used in test-pipeline pipeline " ++
        "but do not exist in the cluster: [task-a task-b task-finally]") := by
  refine ⟨by decide, ?_⟩
  have h := (validateTaskRefs_message testPipeline [] [namedClusterTask "task-a"]
    (by decide)).1
  rw [h]
  decide

/-! ## ValidateParams: claims -/

/-- Counterexample to C7. A pipeline that declares param1 and param2 in spec.params and
binds nothing gets all three required parameters of `task-a` listed, the declared ones
included; and in the second case of `TestValidateParams` the required parameter
`param-extra`, which spec.params does not declare, is not listed under `task-a`. -/
theorem validateParams_declared_counterexample :
    (scenarioADeclared.Spec.Params.map (·.Name) = ["param1", "param2"] ∧
      pTasksWithMissingParams scenarioADeclared [scenarioATask] [] =
        [("task-a", ["param1", "param2", "param-missed-1"])]) ∧
    ("param-extra" ∉ testPipeline.Spec.Params.map (·.Name) ∧
      mapGet (pTasksWithMissingParams testPipeline testParamsTasks testParamsClusterTasks)
        "task-a" = some ["param-missed-1"]) := by
  decide

/-- C7 (amended): `ValidateParams` checks required parameters against the parameter
bindings of the pipeline tasks. In a pipeline with pairwise distinct pipeline-task names,
for a pipeline task whose reference matches a catalog entry by name, a no-default parameter
of that entry is listed under the pipeline task's name if and only if no pipeline task of
the main or finally list binds a parameter of that name; spec.params is not consulted.
A pipeline task binding param1 and param2 that references `task-a` requiring param1,
param2 and param-missed-1 yields task-a: [param-missed-1]. -/
theorem validateParams_listed_iff_unbound (p : extendedPipeline) (cTasks : List extendedTask)
    (cClusterTasks : List extendedClusterTask)
    (hnd : ((p.Spec.Tasks ++ p.Spec.Finally).map (·.Name)).Nodup)
    (pt : PipelineTask) (hpt : pt ∈ p.Spec.Tasks ++ p.Spec.Finally)
    (r : TaskRef) (hr : pt.TaskRef = some r)
    (e : allTasks) (he : e ∈ allclusterTasks cTasks cClusterTasks)
    (hname : e.getName = r.Name)
    (cp : ParamSpec) (hcp : cp ∈ e.getParams) (hdef : cp.Default = none) :
    ((∃ l, mapGet (pTasksWithMissingParams p cTasks cClusterTasks) pt.Name = some l ∧
        cp.Name ∈ l) ↔
      ¬ ∃ pt2 ∈ p.Spec.Tasks ++ p.Spec.Finally, ∃ b ∈ pt2.Params, b.Name = cp.Name) ∧
    pTasksWithMissingParams scenarioABound [scenarioATask] [] =
      [("task-a", ["param-missed-1"])] := by
  refine ⟨?_, by decide⟩
  have hreq : cp.Name ∈ requiredParamsList pt cTasks cClusterTasks :=
    (mem_requiredParamsList pt cTasks cClusterTasks cp.Name).2
      ⟨r, hr, e, he, hname, cp, hcp, hdef, rfl⟩
  have hget := mapGet_foldl_of_nodup (missingParams p cTasks cClusterTasks)
    (allPipelineTasks p) [] hnd pt hpt
  have hget2 : mapGet (pTasksWithMissingParams p cTasks cClusterTasks) pt.Name =
      if missingParams p cTasks cClusterTasks pt = [] then none
      else some (missingParams p cTasks cClusterTasks pt) := hget
  rw [hget2, ← mem_pParamNames]
  constructor
  · rintro ⟨l, hl, hmem⟩
    by_cases hnil : missingParams p cTasks cClusterTasks pt = []
    · rw [if_pos hnil] at hl
      exact absurd hl (by simp)
    · rw [if_neg hnil] at hl
      have hl2 : missingParams p cTasks cClusterTasks pt = l := Option.some.inj hl
      rw [← hl2, mem_missingParams] at hmem
      exact hmem.2
  · intro hno
    have hmem : cp.Name ∈ missingParams p cTasks cClusterTasks pt :=
      (mem_missingParams p cTasks cClusterTasks pt cp.Name).2 ⟨hreq, hno⟩
    refine ⟨missingParams p cTasks cClusterTasks pt, ?_, hmem⟩
    rw [if_neg (List.ne_nil_of_mem hmem)]

/-- Witness of C7 (amended): scenario A with bindings, parameter param-missed-1. -/
theorem validateParams_listed_iff_unbound_witness :
    ((∃ l, mapGet (pTasksWithMissingParams scenarioABound [scenarioATask] []) "task-a" =
          some l ∧ "param-missed-1" ∈ l) ↔
      ¬ ∃ pt2 ∈ scenarioABound.Spec.Tasks ++ scenarioABound.Spec.Finally,
        ∃ b ∈ pt2.Params, b.Name = "param-missed-1") ∧
    pTasksWithMissingParams scenarioABound [scenarioATask] [] =
      [("task-a", ["param-missed-1"])] :=
  validateParams_listed_iff_unbound scenarioABound [scenarioATask] [] (by decide)
    ⟨"task-a", some ⟨"task-a", ""⟩,
      [⟨"param1", .string "$(params.param1)"⟩, ⟨"param2", .string "$(params.param2)"⟩], []⟩
    (by decide) ⟨"task-a", ""⟩ rfl (.task scenarioATask) (by decide) rfl
    ⟨"param-missed-1", none⟩ (by decide) rfl

/-- C8: `ValidateParams` returns no error exactly when the parameter bindings of the
pipeline tasks cover every task parameter without a default: for each pipeline task with
a reference, each no-default parameter of each catalog entry (cluster task or task) named
like the reference is the name of a binding of some pipeline task. -/
theorem validateParams_none_iff_covered (p : extendedPipeline) (cTasks : List extendedTask)
    (cClusterTasks : List extendedClusterTask) :
    ValidateParams p cTasks cClusterTasks = none ↔
      ∀ pt ∈ p.Spec.Tasks ++ p.Spec.Finally, ∀ r, pt.TaskRef = some r →
        ∀ e ∈ cClusterTasks.map allTasks.clusterTask ++ cTasks.map allTasks.task,
          e.getName = r.Name → ∀ cp ∈ e.getParams, cp.Default = none →
            ∃ pt2 ∈ p.Spec.Tasks ++ p.Spec.Finally, ∃ b ∈ pt2.Params, b.Name = cp.Name := by
  rw [validateParams_none_iff_nil]
  unfold pTasksWithMissingParams
  rw [foldl_recordStep_eq_nil_iff]
  constructor
  · rintro ⟨_, h⟩ pt hpt r hr e he hname cp hcp hdef
    have hnil := h pt hpt
    by_contra hno
    have hmem : cp.Name ∈ missingParams p cTasks cClusterTasks pt :=
      (mem_missingParams p cTasks cClusterTasks pt cp.Name).2
        ⟨(mem_requiredParamsList pt cTasks cClusterTasks cp.Name).2
          ⟨r, hr, e, he, hname, cp, hcp, hdef, rfl⟩,
         fun hin => hno ((mem_pParamNames p cp.Name).1 hin)⟩
    rw [hnil] at hmem
    simp at hmem
  · intro h
    refine ⟨rfl, fun pt hpt => ?_⟩
    apply List.eq_nil_iff_forall_not_mem.2
    intro q hq
    obtain ⟨hreq, hno⟩ := (mem_missingParams p cTasks cClusterTasks pt q).1 hq
    obtain ⟨r, hr, e, he, hname, cp, hcp, hdef, hq2⟩ :=
      (mem_requiredParamsList pt cTasks cClusterTasks q).1 hreq
    apply hno
    rw [mem_pParamNames, ← hq2]
    exact h pt hpt r hr e he hname cp hcp hdef

/-- Counterexample to C9: the pipeline task references `git-clone`; the task of that name
declares `url` with a default, the cluster task of the same name declares it without, and
`url` is listed as missing. -/
theorem validateParams_default_counterexample :
    (pipelineOf "p" [refTask "git-clone" ""]).Spec.Tasks = [refTask "git-clone" ""] ∧
    (refTask "git-clone" "").TaskRef = some ⟨"git-clone", ""⟩ ∧
    sameNameTask.Name = "git-clone" ∧
    (⟨"url", some (.string "default")⟩ : ParamSpec) ∈ sameNameTask.Spec.Params ∧
    mapGet (pTasksWithMissingParams (pipelineOf "p" [refTask "git-clone" ""])
      [sameNameTask] [sameNameClusterTask]) "git-clone" = some ["url"] := by
  decide

/-- C9 (amended): a parameter name is never listed as missing under a pipeline-task name
when every declaration of it, in every catalog entry (task or cluster task, the kind is
not compared) named like the reference of a pipeline task of that name, carries a default
value. A declaration with a default does not keep the name out of the list when such an
entry also declares it without a default. -/
theorem validateParams_default_not_listed (p : extendedPipeline) (cTasks : List extendedTask)
    (cClusterTasks : List extendedClusterTask) (k q : String)
    (hdef : ∀ pt ∈ p.Spec.Tasks ++ p.Spec.Finally, pt.Name = k →
      ∀ r, pt.TaskRef = some r →
        ∀ e ∈ cClusterTasks.map allTasks.clusterTask ++ cTasks.map allTasks.task,
          e.getName = r.Name → ∀ cp ∈ e.getParams, cp.Name = q → cp.Default ≠ none)
    (l : List String)
    (hl : mapGet (pTasksWithMissingParams p cTasks cClusterTasks) k = some l) :
    q ∉ l := by
  intro hq
  rcases mapGet_foldl_some (missingParams p cTasks cClusterTasks) (allPipelineTasks p) [] k l hl
    with h | ⟨pt, hpt, hk, hmiss, _⟩
  · simp [mapGet] at h
  · rw [← hmiss, mem_missingParams, mem_requiredParamsList] at hq
    obtain ⟨⟨r, hr, e, he, hname, cp, hcp, hnone, hcq⟩, _⟩ := hq
    exact hdef pt hpt hk r hr e he hname cp hcp hcq hnone

/-- Witness of C9 (amended): `param-with-default` of `task-a` in the second case of
`TestValidateParams`. -/
theorem validateParams_default_not_listed_witness :
    mapGet (pTasksWithMissingParams testPipeline testParamsTasks testParamsClusterTasks)
      "task-a" = some ["param-missed-1"] ∧
    "param-with-default" ∉ ["param-missed-1"] :=
  ⟨by decide,
    validateParams_default_not_listed testPipeline testParamsTasks testParamsClusterTasks
      "task-a" "param-with-default"
      (by
        intro pt hpt hk r hr e he hname cp hcp hq
        simp only [testPipeline, List.cons_append, List.nil_append, List.mem_cons,
          List.mem_singleton, List.not_mem_nil, or_false] at hpt
        simp only [testParamsTasks, testParamsClusterTasks, List.map_cons, List.map_nil,
          List.cons_append, List.nil_append, List.mem_cons, List.not_mem_nil, or_false] at he
        rcases hpt with rfl | rfl | rfl | rfl
        · cases Option.some.inj hr
          rcases he with rfl | rfl | rfl
          · exact absurd hname (by decide)
          · simp only [allTasks.getParams, List.mem_cons, List.not_mem_nil, or_false] at hcp
            rcases hcp with rfl | rfl | rfl | rfl | rfl | rfl
            · exact absurd hq (by decide)
            · exact absurd hq (by decide)
            · exact absurd hq (by decide)
            · exact absurd hq (by decide)
            · exact absurd hq (by decide)
            · exact Option.some_ne_none _
          · exact absurd hname (by decide)
        · exact absurd hk (by decide)
        · exact absurd hk (by decide)
        · exact absurd hk (by decide))
      ["param-missed-1"] (by decide)⟩

/-! ## ValidateWorkspaces: claims -/

/-- C10: in a pipeline with pairwise distinct pipeline-task names and a catalog in which no
two entries share a name, the list recorded under a pipeline task whose reference matches
an entry is: the non-optional workspace names of the entry that are not binding names of
the pipeline task, then the target of each binding in order (the binding's own name when
the target is empty), without the names declared in spec.workspaces. The pipeline task
has a record exactly when that list is non-empty, and `ValidateWorkspaces` returns no
error exactly when no pipeline task has a record. -/
theorem validateWorkspaces_record (p : extendedPipeline) (cTasks : List extendedTask)
    (cClusterTasks : List extendedClusterTask)
    (hpts : ((p.Spec.Tasks ++ p.Spec.Finally).map (·.Name)).Nodup)
    (hcat : ((cClusterTasks.map allTasks.clusterTask ++ cTasks.map allTasks.task).map
      allTasks.getName).Nodup) :
    (∀ pt ∈ p.Spec.Tasks ++ p.Spec.Finally, ∀ r, pt.TaskRef = some r →
      ∀ e ∈ cClusterTasks.map allTasks.clusterTask ++ cTasks.map allTasks.task,
        e.getName = r.Name →
        ∀ l, l = (((e.getWorkspaces.filter fun ws => !ws.Optional).map (·.Name)).filter
              (fun n => decide (n ∉ pt.Workspaces.map (·.Name))) ++
            pt.Workspaces.map fun w => if w.Workspace = "" then w.Name else w.Workspace).filter
              (fun n => decide (n ∉ p.Spec.Workspaces.map (·.Name))) →
          mapGet (pTasksWithMissingWorkspaces p cTasks cClusterTasks) pt.Name =
            if l = [] then none else some l) ∧
    (ValidateWorkspaces p cTasks cClusterTasks = none ↔
      ∀ pt ∈ p.Spec.Tasks ++ p.Spec.Finally,
        mapGet (pTasksWithMissingWorkspaces p cTasks cClusterTasks) pt.Name = none) := by
  constructor
  · intro pt hpt r hr e he hname l hl
    have hget : mapGet (pTasksWithMissingWorkspaces p cTasks cClusterTasks) pt.Name =
        if missingWorkspaces p cTasks cClusterTasks pt = [] then none
        else some (missingWorkspaces p cTasks cClusterTasks pt) :=
      mapGet_foldl_of_nodup (missingWorkspaces p cTasks cClusterTasks)
        (allPipelineTasks p) [] hpts pt hpt
    have hmiss : missingWorkspaces p cTasks cClusterTasks pt = l := by
      rw [hl, missingWorkspaces, requiredWorkspaceList, allclusterTasks,
        flatMap_requiredWorkspaces_of_unique pt r hr _ hcat e he hname,
        requiredWorkspaces_of_eq pt r hr e hname, sliceOutliers_eq_filter]
      rfl
    rw [hget, hmiss]
  · rw [validateWorkspaces_none_iff_nil]
    constructor
    · intro hnil pt _
      rw [hnil]
      rfl
    · intro h
      have hfold := foldl_recordStep_eq_nil_iff (missingWorkspaces p cTasks cClusterTasks)
        (allPipelineTasks p) []
      apply hfold.2
      refine ⟨rfl, fun pt hpt => ?_⟩
      by_contra hne
      exact mapGet_foldl_ne_none_of_mem (missingWorkspaces p cTasks cClusterTasks)
        (allPipelineTasks p) [] pt hpt hne (h pt hpt)

/-- Witness of C10: the second case of `TestValidateWorkspaces`. -/
theorem validateWorkspaces_record_witness :
    ((testPipeline.Spec.Tasks ++ testPipeline.Spec.Finally).map (·.Name)).Nodup ∧
    ((testWorkspacesClusterTasks.map allTasks.clusterTask ++
      testWorkspacesTasks.map allTasks.task).map allTasks.getName).Nodup ∧
    mapGet (pTasksWithMissingWorkspaces testPipeline testWorkspacesTasks
      testWorkspacesClusterTasks) testTaskB.Name = some ["ws-b-missing", "ws-b-missing-2"] ∧
    ValidateWorkspaces testPipeline testWorkspacesTasks testWorkspacesClusterTasks ≠ none := by
  have h := validateWorkspaces_record testPipeline testWorkspacesTasks
    testWorkspacesClusterTasks (by decide) (by decide)
  refine ⟨by decide, by decide, ?_, by decide⟩
  exact h.1 testTaskB (by decide) ⟨"task-b", "ClusterTask"⟩ rfl
    (.clusterTask ⟨"task-b", ⟨[], [⟨"ws-b-1", false⟩, ⟨"ws-b-missing", false⟩,
      ⟨"ws-b-missing-2", false⟩]⟩⟩) (by decide) rfl ["ws-b-missing", "ws-b-missing-2"]
    (by decide)

/-! ## More lemmas on `ValidateWorkspaces` -/

theorem mem_requiredWorkspaces (pt : PipelineTask) (ct : allTasks) (x : String) :
    x ∈ requiredWorkspaces pt ct ↔
      ∃ r, pt.TaskRef = some r ∧ ct.getName = r.Name ∧
        ((∃ ws ∈ ct.getWorkspaces, ws.Optional = false ∧ ws.Name = x ∧
            ∀ b ∈ pt.Workspaces, b.Name ≠ x) ∨
          ∃ b ∈ pt.Workspaces, (if b.Workspace = "" then b.Name else b.Workspace) = x) := by
  cases hr : pt.TaskRef with
  | none => simp [requiredWorkspaces, hr]
  | some r =>
    by_cases hn : ct.getName = r.Name
    · rw [requiredWorkspaces_of_eq pt r hr ct hn]
      simp only [List.mem_append, List.mem_filter, List.mem_map, decide_eq_true_eq,
        Bool.not_eq_true', Option.some.injEq, exists_eq_left', hn, true_and, not_exists,
        not_and]
      constructor
      · rintro (⟨⟨ws, ⟨hws, hopt⟩, hname⟩, hnb⟩ | h)
        · exact Or.inl ⟨ws, hws, hopt, hname, fun b hb e => hnb b hb e⟩
        · exact Or.inr h
      · rintro (⟨ws, hws, hopt, hname, hnb⟩ | h)
        · exact Or.inl ⟨⟨ws, ⟨hws, hopt⟩, hname⟩, fun b hb e => hnb b hb e⟩
        · exact Or.inr h
    · rw [requiredWorkspaces_of_ne pt r hr ct hn]
      simp [hn]

theorem mem_requiredWorkspaceList (pt : PipelineTask) (cTasks : List extendedTask)
    (cClusterTasks : List extendedClusterTask) (x : String) :
    x ∈ requiredWorkspaceList pt cTasks cClusterTasks ↔
      ∃ r, pt.TaskRef = some r ∧
        ∃ e ∈ cClusterTasks.map allTasks.clusterTask ++ cTasks.map allTasks.task,
          e.getName = r.Name ∧
          ((∃ ws ∈ e.getWorkspaces, ws.Optional = false ∧ ws.Name = x ∧
              ∀ b ∈ pt.Workspaces, b.Name ≠ x) ∨
            ∃ b ∈ pt.Workspaces, (if b.Workspace = "" then b.Name else b.Workspace) = x) := by
  unfold requiredWorkspaceList allclusterTasks
  rw [List.mem_flatMap]
  constructor
  · rintro ⟨e, he, hx⟩
    obtain ⟨r, hr, hn, h⟩ := (mem_requiredWorkspaces pt e x).1 hx
    exact ⟨r, hr, e, he, hn, h⟩
  · rintro ⟨r, hr, e, he, hn, h⟩
    exact ⟨e, he, (mem_requiredWorkspaces pt e x).2 ⟨r, hr, hn, h⟩⟩

theorem mem_missingWorkspaces (p : extendedPipeline) (cTasks : List extendedTask)
    (cClusterTasks : List extendedClusterTask) (pt : PipelineTask) (x : String) :
    x ∈ missingWorkspaces p cTasks cClusterTasks pt ↔
      x ∈ requiredWorkspaceList pt cTasks cClusterTasks ∧
        x ∉ p.Spec.Workspaces.map (·.Name) := by
  unfold missingWorkspaces
  exact mem_sliceOutliers _ _ _

theorem mapGet_workspaces_of_nodup (p : extendedPipeline) (cTasks : List extendedTask)
    (cClusterTasks : List extendedClusterTask)
    (hnd : ((p.Spec.Tasks ++ p.Spec.Finally).map (·.Name)).Nodup)
    (pt : PipelineTask) (hpt : pt ∈ p.Spec.Tasks ++ p.Spec.Finally) :
    mapGet (pTasksWithMissingWorkspaces p cTasks cClusterTasks) pt.Name =
      if missingWorkspaces p cTasks cClusterTasks pt = [] then none
      else some (missingWorkspaces p cTasks cClusterTasks pt) :=
  mapGet_foldl_of_nodup (missingWorkspaces p cTasks cClusterTasks) (allPipelineTasks p) []
    hnd pt hpt

theorem mapGet_params_of_nodup (p : extendedPipeline) (cTasks : List extendedTask)
    (cClusterTasks : List extendedClusterTask)
    (hnd : ((p.Spec.Tasks ++ p.Spec.Finally).map (·.Name)).Nodup)
    (pt : PipelineTask) (hpt : pt ∈ p.Spec.Tasks ++ p.Spec.Finally) :
    mapGet (pTasksWithMissingParams p cTasks cClusterTasks) pt.Name =
      if missingParams p cTasks cClusterTasks pt = [] then none
      else some (missingParams p cTasks cClusterTasks pt) :=
  mapGet_foldl_of_nodup (missingParams p cTasks cClusterTasks) (allPipelineTasks p) []
    hnd pt hpt

theorem mapGet_some_of_nodup_workspaces (p : extendedPipeline) (cTasks : List extendedTask)
    (cClusterTasks : List extendedClusterTask)
    (hnd : ((p.Spec.Tasks ++ p.Spec.Finally).map (·.Name)).Nodup)
    (pt : PipelineTask) (hpt : pt ∈ p.Spec.Tasks ++ p.Spec.Finally) (l : List String)
    (hl : mapGet (pTasksWithMissingWorkspaces p cTasks cClusterTasks) pt.Name = some l) :
    l = missingWorkspaces p cTasks cClusterTasks pt := by
  rw [mapGet_workspaces_of_nodup p cTasks cClusterTasks hnd pt hpt] at hl
  by_cases h : missingWorkspaces p cTasks cClusterTasks pt = []
  · rw [if_pos h] at hl
    exact absurd hl (by simp)
  · rw [if_neg h] at hl
    exact (Option.some.inj hl).symm

/-! ## ValidateWorkspaces: bindings, fallback and optional workspaces -/

/-- Counterexample to C11: the task `build` binds `source` to the declared pipeline
workspace `shared`, the referenced task requires `source`, and `source` is reported all
the same, because a second binding of the task has the undeclared `source` as target. -/
theorem validateWorkspaces_bound_counterexample :
    (⟨"source", "shared"⟩ : WorkspacePipelineTaskBinding) ∈
      (chainedPipeline.Spec.Tasks.map (·.Workspaces)).flatten ∧
    (⟨"source", false⟩ : WorkspaceDeclaration) ∈ chainedTask.Spec.Workspaces ∧
    "shared" ∈ chainedPipeline.Spec.Workspaces.map (·.Name) ∧
    mapGet (pTasksWithMissingWorkspaces chainedPipeline [chainedTask] []) "build" =
      some ["source"] ∧
    ValidateWorkspaces chainedPipeline [chainedTask] [] =
      some "p is missing the following workspaces:\nmap[build:[source]]" := by
  decide

/-- C11 (amended): for a pipeline task that binds the task-side workspace name n to a
pipeline workspace t declared in spec.workspaces, `ValidateWorkspaces` reports t in no
list at all, and, in a pipeline with pairwise distinct pipeline-task names, n is in the
list recorded for that task, also when the pipeline declares no workspace named n, only
if n is itself the pipeline workspace that one of the task's bindings resolves to (its
target, or its name when the target is empty). -/
theorem validateWorkspaces_bound_not_reported (p : extendedPipeline)
    (cTasks : List extendedTask) (cClusterTasks : List extendedClusterTask)
    (pt : PipelineTask) (hpt : pt ∈ p.Spec.Tasks ++ p.Spec.Finally)
    (b : WorkspacePipelineTaskBinding) (hb : b ∈ pt.Workspaces)
    (hdecl : b.Workspace ∈ p.Spec.Workspaces.map (·.Name)) :
    (∀ k l, mapGet (pTasksWithMissingWorkspaces p cTasks cClusterTasks) k = some l →
      b.Workspace ∉ l) ∧
    (((p.Spec.Tasks ++ p.Spec.Finally).map (·.Name)).Nodup →
      ∀ l, mapGet (pTasksWithMissingWorkspaces p cTasks cClusterTasks) pt.Name = some l →
        b.Name ∈ l →
        ∃ w ∈ pt.Workspaces, (if w.Workspace = "" then w.Name else w.Workspace) = b.Name) := by
  constructor
  · intro k l hl hmem
    rcases mapGet_foldl_some (missingWorkspaces p cTasks cClusterTasks) (allPipelineTasks p) []
      k l hl with h0 | ⟨pt2, _, _, hmiss, _⟩
    · simp [mapGet] at h0
    · rw [← hmiss] at hmem
      exact ((mem_missingWorkspaces p cTasks cClusterTasks pt2 b.Workspace).1 hmem).2 hdecl
  · intro hnd l hl hmem
    have hl2 := mapGet_some_of_nodup_workspaces p cTasks cClusterTasks hnd pt hpt l hl
    subst hl2
    obtain ⟨hreq, _⟩ := (mem_missingWorkspaces p cTasks cClusterTasks pt b.Name).1 hmem
    obtain ⟨_, _, _, _, _, h⟩ :=
      (mem_requiredWorkspaceList pt cTasks cClusterTasks b.Name).1 hreq
    rcases h with ⟨_, _, _, _, hnb⟩ | h
    · exact absurd rfl (hnb b hb)
    · exact h

/-- Witness of C11 (amended): `ws-a-2` bound to `ws2` by `task-a`, in the second case of
`TestValidateWorkspaces`; the pipeline declares no workspace `ws-a-2`, no binding of
`task-a` resolves to `ws-a-2`, and neither name is in the list of `task-a`. -/
theorem validateWorkspaces_bound_not_reported_witness :
    "ws-a-2" ∉ testPipeline.Spec.Workspaces.map (·.Name) ∧
    mapGet (pTasksWithMissingWorkspaces testPipeline testWorkspacesTasks
      testWorkspacesClusterTasks) "task-a" = some ["ws-a-missing"] ∧
    "ws2" ∉ ["ws-a-missing"] ∧ "ws-a-2" ∉ ["ws-a-missing"] := by
  have h := validateWorkspaces_bound_not_reported testPipeline testWorkspacesTasks
    testWorkspacesClusterTasks testTaskA (by decide) ⟨"ws-a-2", "ws2"⟩ (by decide) (by decide)
  refine ⟨by decide, by decide, h.1 "task-a" ["ws-a-missing"] (by decide), ?_⟩
  intro hin
  have hex := h.2 (by decide) ["ws-a-missing"] (by decide) hin
  revert hex
  decide

/-- Two pipeline tasks that share the name `t`: the report is a map keyed by the
pipeline-task name, so the list of the second task replaces the list of the first, and
the record under `t` does not contain the workspace `ws-x` that the first task lacks.
The error is returned all the same. -/
theorem shared_name_record_replaced :
    (sharedNamePipeline.Spec.Tasks.map fun pt => (pt.Name, pt.TaskRef, pt.Workspaces)) =
      [("t", some ⟨"task-a", ""⟩, []), ("t", some ⟨"task-b", ""⟩, [])] ∧
    sharedNamePipeline.Spec.Workspaces = [] ∧
    (sharedNameTasks.map fun e => (e.Name, e.Spec.Workspaces)) =
      [("task-a", [⟨"ws-x", false⟩]), ("task-b", [⟨"ws-y", false⟩])] ∧
    mapGet (pTasksWithMissingWorkspaces sharedNamePipeline sharedNameTasks []) "t" =
      some ["ws-y"] ∧
    ValidateWorkspaces sharedNamePipeline sharedNameTasks [] =
      some "p is missing the following workspaces:\nmap[t:[ws-y]]" := by
  decide

/-- Counterexample to C13: the pipeline task references `git-clone` and binds nothing; the
task of that name declares `cache` as optional, the cluster task of the same name declares
it as required, and `cache` is reported. -/
theorem validateWorkspaces_optional_counterexample :
    (pipelineOf "p" [refTask "git-clone" ""]).Spec.Tasks = [refTask "git-clone" ""] ∧
    (refTask "git-clone" "").TaskRef = some ⟨"git-clone", ""⟩ ∧
    (refTask "git-clone" "").Workspaces = [] ∧
    optionalCacheTask.Name = "git-clone" ∧
    (⟨"cache", true⟩ : WorkspaceDeclaration) ∈ optionalCacheTask.Spec.Workspaces ∧
    mapGet (pTasksWithMissingWorkspaces (pipelineOf "p" [refTask "git-clone" ""])
      [optionalCacheTask] [requiredCacheClusterTask]) "git-clone" = some ["cache"] := by
  decide

/-- C13 (amended): in a pipeline with pairwise distinct pipeline-task names, for a pipeline
task whose reference matches a catalog entry by name: a workspace name that every entry
carrying the referenced name (task or cluster task) declares only as optional, and that
appears in none of the task's bindings, is never reported for that task; and the target of
every binding the task declares (its workspace field, or its name when the field is empty)
is reported whenever spec.workspaces does not contain it, whatever the optional flag of
the bound task-side workspace. -/
theorem validateWorkspaces_optional (p : extendedPipeline)
    (cTasks : List extendedTask) (cClusterTasks : List extendedClusterTask)
    (hnd : ((p.Spec.Tasks ++ p.Spec.Finally).map (·.Name)).Nodup)
    (pt : PipelineTask) (hpt : pt ∈ p.Spec.Tasks ++ p.Spec.Finally)
    (r : TaskRef) (hr : pt.TaskRef = some r)
    (e : allTasks) (he : e ∈ cClusterTasks.map allTasks.clusterTask ++ cTasks.map allTasks.task)
    (hname : e.getName = r.Name) :
    (∀ w : String,
      (∀ e2 ∈ cClusterTasks.map allTasks.clusterTask ++ cTasks.map allTasks.task,
        e2.getName = r.Name → ∀ ws ∈ e2.getWorkspaces, ws.Name = w → ws.Optional = true) →
      (∀ b ∈ pt.Workspaces, b.Name ≠ w ∧ b.Workspace ≠ w) →
      ∀ l, mapGet (pTasksWithMissingWorkspaces p cTasks cClusterTasks) pt.Name = some l →
        w ∉ l) ∧
    (∀ b ∈ pt.Workspaces,
      (if b.Workspace = "" then b.Name else b.Workspace) ∉ p.Spec.Workspaces.map (·.Name) →
      ∃ l, mapGet (pTasksWithMissingWorkspaces p cTasks cClusterTasks) pt.Name = some l ∧
        (if b.Workspace = "" then b.Name else b.Workspace) ∈ l) := by
  constructor
  · intro w hopt hnb l hl hmem
    have hl2 := mapGet_some_of_nodup_workspaces p cTasks cClusterTasks hnd pt hpt l hl
    subst hl2
    obtain ⟨hreq, _⟩ := (mem_missingWorkspaces p cTasks cClusterTasks pt w).1 hmem
    obtain ⟨r2, hr2, e2, he2, hn2, h⟩ :=
      (mem_requiredWorkspaceList pt cTasks cClusterTasks w).1 hreq
    have hrr : r2 = r := Option.some.inj (hr2.symm.trans hr)
    subst hrr
    rcases h with ⟨ws, hws, hreqd, hwn, _⟩ | ⟨b, hb, hres⟩
    · have := hopt e2 he2 hn2 ws hws hwn
      rw [hreqd] at this
      exact Bool.false_ne_true this
    · by_cases hempty : b.Workspace = ""
      · rw [if_pos hempty] at hres
        exact (hnb b hb).1 hres
      · rw [if_neg hempty] at hres
        exact (hnb b hb).2 hres
  · intro b hb hundecl
    have hmem : (if b.Workspace = "" then b.Name else b.Workspace) ∈
        missingWorkspaces p cTasks cClusterTasks pt := by
      rw [mem_missingWorkspaces, mem_requiredWorkspaceList]
      exact ⟨⟨r, hr, e, he, hname, Or.inr ⟨b, hb, rfl⟩⟩, hundecl⟩
    have hget := mapGet_workspaces_of_nodup p cTasks cClusterTasks hnd pt hpt
    rw [if_neg (List.ne_nil_of_mem hmem)] at hget
    exact ⟨_, hget, hmem⟩

/-- Witness of C13 (amended): the optional `cache` of `task-o` appears in no binding and is
not reported; the binding of the optional `logs` has the undeclared target
`ws-undeclared`, which is reported. -/
theorem validateWorkspaces_optional_witness :
    mapGet (pTasksWithMissingWorkspaces optionalPipeline [optionalTask] []) "t" =
      some ["ws-undeclared"] ∧
    "cache" ∉ ["ws-undeclared"] ∧
    ∃ l, mapGet (pTasksWithMissingWorkspaces optionalPipeline [optionalTask] []) "t" =
      some l ∧ "ws-undeclared" ∈ l := by
  have h := validateWorkspaces_optional optionalPipeline [optionalTask] [] (by decide)
    ⟨"t", some ⟨"task-o", ""⟩, [], [⟨"data", "ws1"⟩, ⟨"logs", "ws-undeclared"⟩]⟩ (by decide)
    ⟨"task-o", ""⟩ rfl (.task optionalTask) (by decide) rfl
  exact ⟨by decide,
    h.1 "cache" (by decide) (by decide) ["ws-undeclared"] (by decide),
    h.2 ⟨"logs", "ws-undeclared"⟩ (by decide) (by decide)⟩

/-- C14: the result of `ValidateWorkspaces` does not depend on the optional flag of the
workspace declarations of the pipeline: two pipelines with the same name, main list and
finally list, whose workspace declarations carry the same names in the same order, get
the same result for every catalog. -/
theorem validateWorkspaces_pipeline_optional (p1 p2 : extendedPipeline)
    (cTasks : List extendedTask) (cClusterTasks : List extendedClusterTask)
    (hname : p1.Name = p2.Name)
    (htasks : p1.Spec.Tasks = p2.Spec.Tasks) (hfinally : p1.Spec.Finally = p2.Spec.Finally)
    (hws : p1.Spec.Workspaces.map (·.Name) = p2.Spec.Workspaces.map (·.Name)) :
    ValidateWorkspaces p1 cTasks cClusterTasks = ValidateWorkspaces p2 cTasks cClusterTasks := by
  have hmiss : missingWorkspaces p1 cTasks cClusterTasks =
      missingWorkspaces p2 cTasks cClusterTasks := by
    funext pt
    simp only [missingWorkspaces, pWorkspaceNames, hws]
  have hall : allPipelineTasks p1 = allPipelineTasks p2 := by
    simp only [allPipelineTasks, htasks, hfinally]
  simp only [ValidateWorkspaces, pTasksWithMissingWorkspaces, hmiss, hall, hname]

/-- Witness of C14: the test pipeline and the same pipeline with every optional flag of
spec.workspaces inverted, on the second case of `TestValidateWorkspaces`. -/
theorem validateWorkspaces_pipeline_optional_witness :
    testPipeline.Spec.Workspaces.map (·.Optional) ≠
      testPipelineFlipped.Spec.Workspaces.map (·.Optional) ∧
    ValidateWorkspaces testPipeline testWorkspacesTasks testWorkspacesClusterTasks =
      ValidateWorkspaces testPipelineFlipped testWorkspacesTasks testWorkspacesClusterTasks :=
  ⟨by decide,
    validateWorkspaces_pipeline_optional testPipeline testPipelineFlipped testWorkspacesTasks
      testWorkspacesClusterTasks rfl rfl rfl (by decide)⟩

/-! ## Unresolved references and inline tasks -/

theorem requiredParamsList_of_no_match (pt : PipelineTask) (cTasks : List extendedTask)
    (cClusterTasks : List extendedClusterTask)
    (h : ∀ r, pt.TaskRef = some r →
      ∀ e ∈ cClusterTasks.map allTasks.clusterTask ++ cTasks.map allTasks.task,
        e.getName ≠ r.Name) :
    requiredParamsList pt cTasks cClusterTasks = [] := by
  apply List.eq_nil_iff_forall_not_mem.2
  intro q hq
  obtain ⟨r, hr, e, he, hn, _⟩ := (mem_requiredParamsList pt cTasks cClusterTasks q).1 hq
  exact h r hr e he hn

theorem requiredWorkspaceList_of_no_match (pt : PipelineTask) (cTasks : List extendedTask)
    (cClusterTasks : List extendedClusterTask)
    (h : ∀ r, pt.TaskRef = some r →
      ∀ e ∈ cClusterTasks.map allTasks.clusterTask ++ cTasks.map allTasks.task,
        e.getName ≠ r.Name) :
    requiredWorkspaceList pt cTasks cClusterTasks = [] := by
  apply List.eq_nil_iff_forall_not_mem.2
  intro x hx
  obtain ⟨r, hr, e, he, hn, _⟩ := (mem_requiredWorkspaceList pt cTasks cClusterTasks x).1 hx
  exact h r hr e he hn

theorem no_record_of_no_match (p : extendedPipeline) (cTasks : List extendedTask)
    (cClusterTasks : List extendedClusterTask)
    (hnd : ((p.Spec.Tasks ++ p.Spec.Finally).map (·.Name)).Nodup)
    (pt : PipelineTask) (hpt : pt ∈ p.Spec.Tasks ++ p.Spec.Finally)
    (h : ∀ r, pt.TaskRef = some r →
      ∀ e ∈ cClusterTasks.map allTasks.clusterTask ++ cTasks.map allTasks.task,
        e.getName ≠ r.Name) :
    mapGet (pTasksWithMissingParams p cTasks cClusterTasks) pt.Name = none ∧
    mapGet (pTasksWithMissingWorkspaces p cTasks cClusterTasks) pt.Name = none := by
  constructor
  · rw [mapGet_params_of_nodup p cTasks cClusterTasks hnd pt hpt]
    have : missingParams p cTasks cClusterTasks pt = [] := by
      rw [missingParams, requiredParamsList_of_no_match pt cTasks cClusterTasks h]
      rfl
    rw [if_pos this]
  · rw [mapGet_workspaces_of_nodup p cTasks cClusterTasks hnd pt hpt]
    have : missingWorkspaces p cTasks cClusterTasks pt = [] := by
      rw [missingWorkspaces, requiredWorkspaceList_of_no_match pt cTasks cClusterTasks h]
      rfl
    rw [if_pos this]

/-- Counterexample to C15: the test pipeline references `task-b` as a cluster task and the
catalog has only a task of that name; `ValidateTaskRefs` reports `task-b`, and the other
two validators still record a missing parameter and a missing workspace under `task-b`. -/
theorem unresolved_skipped_counterexample :
    ((testPipeline.Spec.Tasks ++ testPipeline.Spec.Finally).map (·.Name)).Nodup ∧
    testTaskB ∈ testPipeline.Spec.Tasks ∧
    testTaskB.TaskRef = some ⟨"task-b", "ClusterTask"⟩ ∧
    "task-b" ∈ sortStrings (missingTasks testPipeline [otherKindTask] []) ∧
    mapGet (pTasksWithMissingParams testPipeline [otherKindTask] []) testTaskB.Name =
      some ["param-q"] ∧
    mapGet (pTasksWithMissingWorkspaces testPipeline [otherKindTask] []) testTaskB.Name =
      some ["ws-q"] := by
  decide

/-- C15 (amended): in a pipeline with pairwise distinct pipeline-task names, a pipeline
task whose referenced name is carried by no catalog entry of either kind is reported by
`ValidateTaskRefs` and has no record under its name in the reports of `ValidateParams`
and `ValidateWorkspaces`. A name that is missing under the referenced kind only is still
checked by these two validators against the entry of the other kind. -/
theorem unresolved_skipped (p : extendedPipeline) (cTasks : List extendedTask)
    (cClusterTasks : List extendedClusterTask)
    (hnd : ((p.Spec.Tasks ++ p.Spec.Finally).map (·.Name)).Nodup)
    (pt : PipelineTask) (hpt : pt ∈ p.Spec.Tasks ++ p.Spec.Finally)
    (r : TaskRef) (hr : pt.TaskRef = some r)
    (hnoTask : ∀ t ∈ cTasks, t.Name ≠ r.Name)
    (hnoClusterTask : ∀ ct ∈ cClusterTasks, ct.Name ≠ r.Name) :
    r.Name ∈ sortStrings (missingTasks p cTasks cClusterTasks) ∧
    mapGet (pTasksWithMissingParams p cTasks cClusterTasks) pt.Name = none ∧
    mapGet (pTasksWithMissingWorkspaces p cTasks cClusterTasks) pt.Name = none := by
  refine ⟨?_, no_record_of_no_match p cTasks cClusterTasks hnd pt hpt ?_⟩
  · rw [mem_sortStrings, mem_missingTasks]
    refine ⟨pt, hpt, r, hr, rfl, ?_⟩
    by_cases hk : r.Kind = "ClusterTask"
    · exact Or.inl ⟨hk, hnoClusterTask⟩
    · exact Or.inr ⟨hk, hnoTask⟩
  · intro r2 hr2 e he
    have hrr : r2 = r := Option.some.inj (hr2.symm.trans hr)
    subst hrr
    rcases List.mem_append.1 he with h | h
    · obtain ⟨ct, hct, rfl⟩ := List.mem_map.1 h
      exact hnoClusterTask ct hct
    · obtain ⟨t, ht, rfl⟩ := List.mem_map.1 h
      exact hnoTask t ht

/-- Witness of C15 (amended): `task-a` of the test pipeline with a catalog that has no
entry of that name, the fourth case of `TestValidateTaskRefs` without its cluster task. -/
theorem unresolved_skipped_witness :
    (⟨"task-a", ""⟩ : TaskRef).Name ∈
      sortStrings (missingTasks testPipeline [] testParamsClusterTasks) ∧
    mapGet (pTasksWithMissingParams testPipeline [] testParamsClusterTasks) testTaskA.Name =
      none ∧
    mapGet (pTasksWithMissingWorkspaces testPipeline [] testParamsClusterTasks)
      testTaskA.Name = none :=
  unresolved_skipped testPipeline [] testParamsClusterTasks (by decide) testTaskA (by decide)
    ⟨"task-a", ""⟩ rfl (by decide) (by decide)

theorem filterMap_filter_of_none {α β : Type} (f : α → Option β) (q : α → Bool)
    (h : ∀ x, q x = false → f x = none) (l : List α) :
    (l.filter q).filterMap f = l.filterMap f := by
  induction l with
  | nil => rfl
  | cons x xs ih =>
    cases hq : q x with
    | true => simp [List.filter_cons, hq, List.filterMap_cons, ih]
    | false => simp [List.filter_cons, hq, List.filterMap_cons, ih, h x hq]

/-- C16: a pipeline task without a task reference is never reported. Removing it from the
main and finally lists changes neither the missing list nor the result of
`ValidateTaskRefs`, and in a pipeline with pairwise distinct pipeline-task names it has no
record under its name in the reports of `ValidateParams` and `ValidateWorkspaces`,
whatever the catalog and its bindings. -/
theorem inline_task_not_reported (p : extendedPipeline) (cTasks : List extendedTask)
    (cClusterTasks : List extendedClusterTask)
    (hnd : ((p.Spec.Tasks ++ p.Spec.Finally).map (·.Name)).Nodup)
    (pt : PipelineTask) (hpt : pt ∈ p.Spec.Tasks ++ p.Spec.Finally)
    (hinline : pt.TaskRef = none) :
    (missingTasks p cTasks cClusterTasks =
        missingTasks ⟨p.Name, ⟨p.Spec.Params, p.Spec.Workspaces,
          p.Spec.Tasks.filter (fun x => decide (x ≠ pt)),
          p.Spec.Finally.filter (fun x => decide (x ≠ pt))⟩⟩ cTasks cClusterTasks ∧
      ValidateTaskRefs p cTasks cClusterTasks =
        ValidateTaskRefs ⟨p.Name, ⟨p.Spec.Params, p.Spec.Workspaces,
          p.Spec.Tasks.filter (fun x => decide (x ≠ pt)),
          p.Spec.Finally.filter (fun x => decide (x ≠ pt))⟩⟩ cTasks cClusterTasks) ∧
    mapGet (pTasksWithMissingParams p cTasks cClusterTasks) pt.Name = none ∧
    mapGet (pTasksWithMissingWorkspaces p cTasks cClusterTasks) pt.Name = none := by
  have hmiss : missingTasks p cTasks cClusterTasks =
      missingTasks ⟨p.Name, ⟨p.Spec.Params, p.Spec.Workspaces,
        p.Spec.Tasks.filter (fun x => decide (x ≠ pt)),
        p.Spec.Finally.filter (fun x => decide (x ≠ pt))⟩⟩ cTasks cClusterTasks := by
    simp only [missingTasks, pTasksNames, pClusterTasksNames, allPipelineTasks,
      ← List.filter_append]
    rw [filterMap_filter_of_none, filterMap_filter_of_none]
    · intro x hx
      have hxe : x = pt := by simpa using hx
      simp [hxe, hinline]
    · intro x hx
      have hxe : x = pt := by simpa using hx
      simp [hxe, hinline]
  refine ⟨⟨hmiss, ?_⟩, no_record_of_no_match p cTasks cClusterTasks hnd pt hpt ?_⟩
  · simp only [ValidateTaskRefs, ← hmiss]
  · intro r hr
    rw [hinline] at hr
    exact absurd hr (by simp)

/-- Witness of C16: `task-c` of the test pipeline, with a catalog whose task `task-c`
requires a parameter and a workspace. -/
theorem inline_task_not_reported_witness :
    ((testPipeline.Spec.Tasks ++ testPipeline.Spec.Finally).map (·.Name)).Nodup ∧
    testTaskC.TaskRef = none ∧
    ValidateTaskRefs testPipeline [inlineNameTask] [] =
      ValidateTaskRefs (pipelineOf "test-pipeline" [testTaskA, testTaskB, testTaskFinally])
        [inlineNameTask] [] ∧
    mapGet (pTasksWithMissingParams testPipeline [inlineNameTask] []) "task-c" = none ∧
    mapGet (pTasksWithMissingWorkspaces testPipeline [inlineNameTask] []) "task-c" = none := by
  have h := inline_task_not_reported testPipeline [inlineNameTask] [] (by decide) testTaskC
    (by decide) rfl
  exact ⟨by decide, rfl, by decide, h.2.1, h.2.2⟩

/-! ## The per-task lists and the messages -/

/-- Counterexample to C17: the pipeline task references `x`; the cluster task `x` requires
`a` and the task `x` requires `b` and `a`, in this order. Both validators record the list
`a`, `b`, `a`, which is neither in ascending order nor free of repetitions. -/
theorem per_task_lists_counterexample :
    mapGet (pTasksWithMissingParams (pipelineOf "p" [refTask "x" ""]) [unsortedTask]
      [unsortedClusterTask]) "x" = some ["a", "b", "a"] ∧
    mapGet (pTasksWithMissingWorkspaces (pipelineOf "p" [refTask "x" ""]) [unsortedTask]
      [unsortedClusterTask]) "x" = some ["a", "b", "a"] ∧
    ¬ List.Pairwise stringLE ["a", "b", "a"] ∧
    ¬ (["a", "b", "a"] : List String).Nodup ∧
    mapGet (pTasksWithMissingParams (pipelineOf "p" [refTask "x" ""]) [unsortedTask] [])
      "x" = some ["b", "a"] := by
  decide

theorem flatMap_requiredParams_clusterTasks (pt : PipelineTask) (r : TaskRef)
    (hr : pt.TaskRef = some r) (l : List extendedClusterTask) :
    (l.map allTasks.clusterTask).flatMap (fun ct => requiredParams pt ct) =
      (l.filter fun e => decide (e.Name = r.Name)).flatMap fun e =>
        (e.Spec.Params.filter fun cp => decide (cp.Default = none)).map (·.Name) := by
  induction l with
  | nil => rfl
  | cons e es ih =>
    rw [List.map_cons, List.flatMap_cons, ih]
    by_cases hn : e.Name = r.Name
    · simp [requiredParams, hr, allTasks.getName, allTasks.getParams, hn, List.filter_cons]
    · simp [requiredParams, hr, allTasks.getName, hn, List.filter_cons]

theorem flatMap_requiredParams_tasks (pt : PipelineTask) (r : TaskRef)
    (hr : pt.TaskRef = some r) (l : List extendedTask) :
    (l.map allTasks.task).flatMap (fun ct => requiredParams pt ct) =
      (l.filter fun e => decide (e.Name = r.Name)).flatMap fun e =>
        (e.Spec.Params.filter fun cp => decide (cp.Default = none)).map (·.Name) := by
  induction l with
  | nil => rfl
  | cons e es ih =>
    rw [List.map_cons, List.flatMap_cons, ih]
    by_cases hn : e.Name = r.Name
    · simp [requiredParams, hr, allTasks.getName, allTasks.getParams, hn, List.filter_cons]
    · simp [requiredParams, hr, allTasks.getName, hn, List.filter_cons]

theorem flatMap_requiredWorkspaces_clusterTasks (pt : PipelineTask) (r : TaskRef)
    (hr : pt.TaskRef = some r) (l : List extendedClusterTask) :
    (l.map allTasks.clusterTask).flatMap (fun ct => requiredWorkspaces pt ct) =
      (l.filter fun e => decide (e.Name = r.Name)).flatMap fun e =>
        ((e.Spec.Workspaces.filter fun ws => !ws.Optional).map (·.Name)).filter
            (fun n => decide (n ∉ pt.Workspaces.map (·.Name))) ++
          pt.Workspaces.map fun w => if w.Workspace = "" then w.Name else w.Workspace := by
  induction l with
  | nil => rfl
  | cons e es ih =>
    rw [List.map_cons, List.flatMap_cons, ih]
    by_cases hn : e.Name = r.Name
    · rw [requiredWorkspaces_of_eq pt r hr (.clusterTask e) hn, List.filter_cons]
      simp only [hn, decide_True, if_true, List.flatMap_cons]
      rfl
    · rw [requiredWorkspaces_of_ne pt r hr (.clusterTask e) hn, List.filter_cons]
      simp only [hn, decide_False, List.nil_append]
      rfl

theorem flatMap_requiredWorkspaces_tasks (pt : PipelineTask) (r : TaskRef)
    (hr : pt.TaskRef = some r) (l : List extendedTask) :
    (l.map allTasks.task).flatMap (fun ct => requiredWorkspaces pt ct) =
      (l.filter fun e => decide (e.Name = r.Name)).flatMap fun e =>
        ((e.Spec.Workspaces.filter fun ws => !ws.Optional).map (·.Name)).filter
            (fun n => decide (n ∉ pt.Workspaces.map (·.Name))) ++
          pt.Workspaces.map fun w => if w.Workspace = "" then w.Name else w.Workspace := by
  induction l with
  | nil => rfl
  | cons e es ih =>
    rw [List.map_cons, List.flatMap_cons, ih]
    by_cases hn : e.Name = r.Name
    · rw [requiredWorkspaces_of_eq pt r hr (.task e) hn, List.filter_cons]
      simp only [hn, decide_True, if_true, List.flatMap_cons]
      rfl
    · rw [requiredWorkspaces_of_ne pt r hr (.task e) hn, List.filter_cons]
      simp only [hn, decide_False, List.nil_append]
      rfl

theorem missingParams_of_none (p : extendedPipeline) (cTasks : List extendedTask)
    (cClusterTasks : List extendedClusterTask) (pt : PipelineTask) (h : pt.TaskRef = none) :
    missingParams p cTasks cClusterTasks pt = [] := by
  rw [missingParams, requiredParamsList_of_no_match pt cTasks cClusterTasks]
  · rfl
  · intro r hr
    rw [h] at hr
    exact absurd hr (by simp)

theorem missingWorkspaces_of_none (p : extendedPipeline) (cTasks : List extendedTask)
    (cClusterTasks : List extendedClusterTask) (pt : PipelineTask) (h : pt.TaskRef = none) :
    missingWorkspaces p cTasks cClusterTasks pt = [] := by
  rw [missingWorkspaces, requiredWorkspaceList_of_no_match pt cTasks cClusterTasks]
  · rfl
  · intro r hr
    rw [h] at hr
    exact absurd hr (by simp)

/-- C17 (amended): each list that `ValidateParams` records under a pipeline-task name
belongs to a pipeline task of that name with a task reference, and is: the names of the
parameters without a default of the cluster tasks named like the reference, then of the
tasks named like it, each in declaration order, without the names that occur among the
parameter bindings of the pipeline tasks. Each list that `ValidateWorkspaces` records is:
for the cluster tasks named like the reference, then the tasks, the non-optional workspace
names that are not binding names of the pipeline task followed by the target of each of
its bindings (the binding name when the target is empty), without the names declared in
spec.workspaces. Order and repetitions are kept: the shared set-difference filters, it
neither sorts nor removes duplicates. -/
theorem per_task_lists (p : extendedPipeline) (cTasks : List extendedTask)
    (cClusterTasks : List extendedClusterTask) :
    (∀ k l, mapGet (pTasksWithMissingParams p cTasks cClusterTasks) k = some l →
      ∃ pt ∈ p.Spec.Tasks ++ p.Spec.Finally, pt.Name = k ∧ ∃ r, pt.TaskRef = some r ∧
        l = (((cClusterTasks.filter fun e => decide (e.Name = r.Name)).flatMap fun e =>
                (e.Spec.Params.filter fun cp => decide (cp.Default = none)).map (·.Name)) ++
              ((cTasks.filter fun e => decide (e.Name = r.Name)).flatMap fun e =>
                (e.Spec.Params.filter fun cp => decide (cp.Default = none)).map (·.Name))).filter
            (fun q => decide (q ∉ (p.Spec.Tasks ++ p.Spec.Finally).flatMap fun pt2 =>
              pt2.Params.map (·.Name)))) ∧
    (∀ k l, mapGet (pTasksWithMissingWorkspaces p cTasks cClusterTasks) k = some l →
      ∃ pt ∈ p.Spec.Tasks ++ p.Spec.Finally, pt.Name = k ∧ ∃ r, pt.TaskRef = some r ∧
        l = (((cClusterTasks.filter fun e => decide (e.Name = r.Name)).flatMap fun e =>
                ((e.Spec.Workspaces.filter fun ws => !ws.Optional).map (·.Name)).filter
                    (fun n => decide (n ∉ pt.Workspaces.map (·.Name))) ++
                  pt.Workspaces.map fun w =>
                    if w.Workspace = "" then w.Name else w.Workspace) ++
              ((cTasks.filter fun e => decide (e.Name = r.Name)).flatMap fun e =>
                ((e.Spec.Workspaces.filter fun ws => !ws.Optional).map (·.Name)).filter
                    (fun n => decide (n ∉ pt.Workspaces.map (·.Name))) ++
                  pt.Workspaces.map fun w =>
                    if w.Workspace = "" then w.Name else w.Workspace)).filter
            (fun x => decide (x ∉ p.Spec.Workspaces.map (·.Name)))) := by
  constructor
  · intro k l h
    rcases mapGet_foldl_some (missingParams p cTasks cClusterTasks) (allPipelineTasks p) []
      k l h with h0 | ⟨pt, hpt, hk, hmiss, hne⟩
    · simp [mapGet] at h0
    · refine ⟨pt, hpt, hk, ?_⟩
      cases hr : pt.TaskRef with
      | none =>
        rw [missingParams_of_none p cTasks cClusterTasks pt hr] at hmiss
        exact absurd hmiss.symm hne
      | some r =>
        refine ⟨r, rfl, ?_⟩
        rw [← hmiss, missingParams, sliceOutliers_eq_filter, requiredParamsList,
          allclusterTasks, List.flatMap_append, flatMap_requiredParams_clusterTasks pt r hr,
          flatMap_requiredParams_tasks pt r hr]
        rfl
  · intro k l h
    rcases mapGet_foldl_some (missingWorkspaces p cTasks cClusterTasks) (allPipelineTasks p) []
      k l h with h0 | ⟨pt, hpt, hk, hmiss, hne⟩
    · simp [mapGet] at h0
    · refine ⟨pt, hpt, hk, ?_⟩
      cases hr : pt.TaskRef with
      | none =>
        rw [missingWorkspaces_of_none p cTasks cClusterTasks pt hr] at hmiss
        exact absurd hmiss.symm hne
      | some r =>
        refine ⟨r, rfl, ?_⟩
        rw [← hmiss, missingWorkspaces, sliceOutliers_eq_filter, requiredWorkspaceList,
          allclusterTasks, List.flatMap_append, flatMap_requiredWorkspaces_clusterTasks pt r hr,
          flatMap_requiredWorkspaces_tasks pt r hr]
        rfl

/-- Witness of C17 (amended): in the second case of `TestValidateParams` the record of
`task-finally` is `param-missed-2`, `param-missed-3`, the declaration order of the task. -/
theorem per_task_lists_witness :
    mapGet (pTasksWithMissingParams testPipeline testParamsTasks testParamsClusterTasks)
      "task-finally" = some ["param-missed-2", "param-missed-3"] ∧
    ∃ pt ∈ testPipeline.Spec.Tasks ++ testPipeline.Spec.Finally, pt.Name = "task-finally" ∧
      ∃ r, pt.TaskRef = some r ∧
        ["param-missed-2", "param-missed-3"] =
          (((testParamsClusterTasks.filter fun e => decide (e.Name = r.Name)).flatMap fun e =>
                (e.Spec.Params.filter fun cp => decide (cp.Default = none)).map (·.Name)) ++
              ((testParamsTasks.filter fun e => decide (e.Name = r.Name)).flatMap fun e =>
                (e.Spec.Params.filter fun cp => decide (cp.Default = none)).map (·.Name))).filter
            (fun q => decide (q ∉ (testPipeline.Spec.Tasks ++ testPipeline.Spec.Finally).flatMap
              fun pt2 => pt2.Params.map (·.Name))) :=
  ⟨by decide,
    (per_task_lists testPipeline testParamsTasks testParamsClusterTasks).1 "task-finally"
      ["param-missed-2", "param-missed-3"] (by decide)⟩

theorem keys_mapSet (m : GoMap) (k : String) (v : List String) :
    (mapSet m k v).map (·.1) = if k ∈ m.map (·.1) then m.map (·.1) else m.map (·.1) ++ [k] := by
  induction m with
  | nil => simp [mapSet]
  | cons kv rest ih =>
    obtain ⟨k1, v1⟩ := kv
    by_cases h : k1 = k
    · subst h
      simp [mapSet]
    · have h2 : ¬ k = k1 := fun e => h e.symm
      simp only [mapSet, if_neg h, List.map_cons, ih, List.mem_cons, h2, false_or]
      by_cases hin : k ∈ rest.map (·.1)
      · simp [hin]
      · simp [hin]

theorem nodup_keys_mapSet (m : GoMap) (k : String) (v : List String)
    (h : (m.map (·.1)).Nodup) : ((mapSet m k v).map (·.1)).Nodup := by
  rw [keys_mapSet]
  by_cases hin : k ∈ m.map (·.1)
  · rw [if_pos hin]; exact h
  · rw [if_neg hin]
    exact List.Nodup.append h (List.nodup_singleton k) (by simpa using hin)

theorem nodup_keys_foldl (miss : PipelineTask → List String) (pts : List PipelineTask)
    (m : GoMap) (h : (m.map (·.1)).Nodup) :
    ((pts.foldl (recordStep miss) m).map (·.1)).Nodup := by
  induction pts generalizing m with
  | nil => exact h
  | cons x xs ih =>
    rw [List.foldl_cons]
    apply ih
    by_cases hx : miss x = []
    · rw [recordStep_of_nil miss m x hx]; exact h
    · rw [recordStep_of_ne_nil miss m x hx]; exact nodup_keys_mapSet m x.Name (miss x) h

theorem mem_iff_mapGet (m : GoMap) (h : (m.map (·.1)).Nodup) (k : String) (l : List String) :
    (k, l) ∈ m ↔ mapGet m k = some l := by
  induction m with
  | nil => simp [mapGet]
  | cons kv rest ih =>
    obtain ⟨k1, v1⟩ := kv
    rw [List.map_cons, List.nodup_cons] at h
    by_cases hk : k1 = k
    · subst hk
      simp only [mapGet, if_true, List.mem_cons, Prod.mk.injEq, true_and, Option.some.injEq]
      constructor
      · rintro (e | hin)
        · exact e.symm
        · exact absurd (List.mem_map.2 ⟨(k1, l), hin, rfl⟩) h.1
      · intro e
        exact Or.inl e.symm
    · have hk2 : ¬ k = k1 := fun e => hk e.symm
      simp only [mapGet, if_neg hk, List.mem_cons, Prod.mk.injEq, hk2, false_and, false_or]
      exact ih h.2

instance keyLE_isTotal : IsTotal (String × List String) (fun a b => stringLE a.1 b.1) :=
  ⟨fun a b => bytesLE_total (stringBytes a.1) (stringBytes b.1)⟩

instance keyLE_isTrans : IsTrans (String × List String) (fun a b => stringLE a.1 b.1) :=
  ⟨fun a b c => bytesLE_trans (stringBytes a.1) (stringBytes b.1) (stringBytes c.1)⟩

/-- Counterexample to C19: in the first case of `TestValidateWorkspaces` the task `task-a`
needs `ws-a-1`, the pipeline task binds `ws-a-1` to `ws1`, the pipeline declares `ws1` and
no workspace `ws-a-1`, and `ValidateWorkspaces` returns no error. -/
theorem validateWorkspaces_documented_counterexample :
    testTaskA ∈ testPipeline.Spec.Tasks ∧
    (⟨"ws-a-1", "ws1"⟩ : WorkspacePipelineTaskBinding) ∈ testTaskA.Workspaces ∧
    (⟨"task-a", ⟨[], [⟨"ws-a-1", false⟩, ⟨"ws-a-2", false⟩]⟩⟩ : extendedTask) ∈
      testValidWorkspacesTasks ∧
    "ws-a-1" ∉ testPipeline.Spec.Workspaces.map (·.Name) ∧
    ValidateWorkspaces testPipeline testValidWorkspacesTasks testValidWorkspacesClusterTasks =
      none ∧
    mapGet (pTasksWithMissingWorkspaces testPipeline testValidWorkspacesTasks
      testValidWorkspacesClusterTasks) "task-a" = none := by
  decide

/-- C19 (amended): when a pipeline task binds a task-side workspace ws-a to the pipeline
workspace ws-1, `ValidateWorkspaces` expects the pipeline to have ws-1, the target of the
binding, in its spec.workspaces. In a pipeline with pairwise distinct pipeline-task names,
for a pipeline task whose reference matches a catalog entry by name, if the pipeline
declares no workspace named ws-1, an error is returned and ws-1 is in the list recorded
for that pipeline task; ws-a itself is in that list only if it is the pipeline workspace
that one of the task's bindings resolves to. -/
theorem validateWorkspaces_binding_target (p : extendedPipeline)
    (cTasks : List extendedTask) (cClusterTasks : List extendedClusterTask)
    (hnd : ((p.Spec.Tasks ++ p.Spec.Finally).map (·.Name)).Nodup)
    (pt : PipelineTask) (hpt : pt ∈ p.Spec.Tasks ++ p.Spec.Finally)
    (r : TaskRef) (hr : pt.TaskRef = some r)
    (e : allTasks) (he : e ∈ cClusterTasks.map allTasks.clusterTask ++ cTasks.map allTasks.task)
    (hname : e.getName = r.Name)
    (b : WorkspacePipelineTaskBinding) (hb : b ∈ pt.Workspaces)
    (htarget : b.Workspace ≠ "")
    (hundecl : ∀ d ∈ p.Spec.Workspaces, d.Name ≠ b.Workspace) :
    ValidateWorkspaces p cTasks cClusterTasks ≠ none ∧
    ∃ l, mapGet (pTasksWithMissingWorkspaces p cTasks cClusterTasks) pt.Name = some l ∧
      b.Workspace ∈ l ∧
      (b.Name ∈ l →
        ∃ w ∈ pt.Workspaces, (if w.Workspace = "" then w.Name else w.Workspace) = b.Name) := by
  have hmem : b.Workspace ∈ missingWorkspaces p cTasks cClusterTasks pt := by
    rw [mem_missingWorkspaces, mem_requiredWorkspaceList]
    refine ⟨⟨r, hr, e, he, hname, Or.inr ⟨b, hb, by rw [if_neg htarget]⟩⟩, ?_⟩
    intro hin
    obtain ⟨d, hd, hdn⟩ := List.mem_map.1 hin
    exact hundecl d hd hdn
  have hget := mapGet_workspaces_of_nodup p cTasks cClusterTasks hnd pt hpt
  rw [if_neg (List.ne_nil_of_mem hmem)] at hget
  refine ⟨?_, _, hget, hmem, ?_⟩
  · intro hnone
    rw [validateWorkspaces_none_iff_nil] at hnone
    rw [hnone] at hget
    simp [mapGet] at hget
  · intro hin
    obtain ⟨hreq, _⟩ := (mem_missingWorkspaces p cTasks cClusterTasks pt b.Name).1 hin
    obtain ⟨_, _, _, _, _, h⟩ := (mem_requiredWorkspaceList pt cTasks cClusterTasks b.Name).1 hreq
    rcases h with ⟨_, _, _, _, hnb⟩ | h
    · exact absurd rfl (hnb b hb)
    · exact h

/-- Witness of C19 (amended): the task `t` of `optionalPipeline` binds `logs` to the
undeclared pipeline workspace `ws-undeclared`. -/
theorem validateWorkspaces_binding_target_witness :
    ValidateWorkspaces optionalPipeline [optionalTask] [] ≠ none ∧
    ∃ l, mapGet (pTasksWithMissingWorkspaces optionalPipeline [optionalTask] [])
        (⟨"t", some ⟨"task-o", ""⟩, [],
          [⟨"data", "ws1"⟩, ⟨"logs", "ws-undeclared"⟩]⟩ : PipelineTask).Name = some l ∧
      (⟨"logs", "ws-undeclared"⟩ : WorkspacePipelineTaskBinding).Workspace ∈ l ∧
      ((⟨"logs", "ws-undeclared"⟩ : WorkspacePipelineTaskBinding).Name ∈ l →
        ∃ w ∈ (⟨"t", some ⟨"task-o", ""⟩, [],
            [⟨"data", "ws1"⟩, ⟨"logs", "ws-undeclared"⟩]⟩ : PipelineTask).Workspaces,
          (if w.Workspace = "" then w.Name else w.Workspace) =
            (⟨"logs", "ws-undeclared"⟩ : WorkspacePipelineTaskBinding).Name) :=
  validateWorkspaces_binding_target optionalPipeline [optionalTask] [] (by decide)
    ⟨"t", some ⟨"task-o", ""⟩, [], [⟨"data", "ws1"⟩, ⟨"logs", "ws-undeclared"⟩]⟩ (by decide)
    ⟨"task-o", ""⟩ rfl (.task optionalTask) (by decide) rfl
    ⟨"logs", "ws-undeclared"⟩ (by decide) (by decide) (by decide)

/-! ## Warnings -/

/-- C20: `Warnings` returns no error for every pipeline and every catalog of tasks and
cluster tasks. -/
theorem warnings_none (p : extendedPipeline) (cTasks : List extendedTask)
    (cClusterTasks : List extendedClusterTask) :
    Warnings p cTasks cClusterTasks = none :=
  rfl

/-! ## The byte-wise order is antisymmetric: `sort.Strings` does not depend on the input order -/

set_option maxRecDepth 100000 in
theorem byte_masks : ∀ x < 256,
    (x &&& 63 ||| 128) = 128 + x % 64 ∧ (x &&& 31 ||| 192) = 192 + x % 32 ∧
    (x &&& 15 ||| 224) = 224 + x % 16 ∧ (x &&& 7 ||| 240) = 240 + x % 8 := by
  decide

theorem uint8_toNat_mask (n m k : Nat) (hm : m < 256) (hk : k < 256) :
    ((Nat.toUInt8 n) &&& (UInt8.ofNat m) ||| (UInt8.ofNat k)).toNat = (n % 256 &&& m ||| k) := by
  show ((BitVec.ofNat 8 n &&& BitVec.ofNat 8 m) ||| BitVec.ofNat 8 k).toNat = _
  rw [BitVec.toNat_or, BitVec.toNat_and, BitVec.toNat_ofNat, BitVec.toNat_ofNat, BitVec.toNat_ofNat]
  have : m % 2 ^ 8 = m := Nat.mod_eq_of_lt (by omega)
  have h2 : k % 2 ^ 8 = k := Nat.mod_eq_of_lt (by omega)
  rw [this, h2]

theorem uint32_toNat_shift (v s : UInt32) (k : Nat) (hs : (s.mod 32).toBitVec.toNat = k) :
    (v >>> s).toNat = v.toNat / 2 ^ k := by
  show (v.toBitVec >>> (s.mod 32).toBitVec.toNat).toNat = _
  rw [hs, BitVec.toNat_ushiftRight, Nat.shiftRight_eq_div_pow]
  rfl

theorem uint32_le_iff (a b : UInt32) : a ≤ b ↔ a.toNat ≤ b.toNat := by
  rw [UInt32.le_def, BitVec.le_def]
  rfl

theorem nat_toUInt8_toNat (n : Nat) : (Nat.toUInt8 n).toNat = n % 256 := by
  show (BitVec.ofNat 8 n).toNat = _
  rw [BitVec.toNat_ofNat]

theorem utf8EncodeChar_toNat (c : Char) :
    (String.utf8EncodeChar c).map UInt8.toNat = utf8Nat c.val.toNat := by
  have hlt : c.val.toNat < 0x110000 := by
    rcases c.valid with h | ⟨_, h⟩
    · exact Nat.lt_trans h (by decide)
    · exact h
  have s6 := uint32_toNat_shift c.val 6 6 (by decide)
  have s12 := uint32_toNat_shift c.val 12 12 (by decide)
  have s18 := uint32_toNat_shift c.val 18 18 (by decide)
  have m1 := fun n => uint8_toNat_mask n 63 128 (by decide) (by decide)
  have m2 := fun n => uint8_toNat_mask n 31 192 (by decide) (by decide)
  have m3 := fun n => uint8_toNat_mask n 15 224 (by decide) (by decide)
  have m4 := fun n => uint8_toNat_mask n 7 240 (by decide) (by decide)
  have b := fun n => byte_masks (n % 256) (Nat.mod_lt _ (by decide))
  unfold String.utf8EncodeChar utf8Nat
  simp only [uint32_le_iff]
  have e1 : (0x7f : UInt32).toNat = 0x7f := rfl
  have e2 : (0x7ff : UInt32).toNat = 0x7ff := rfl
  have e3 : (0xffff : UInt32).toNat = 0xffff := rfl
  rw [e1, e2, e3]
  by_cases h1 : c.val.toNat ≤ 0x7f
  · simp only [h1, if_true, List.map_cons, List.map_nil, UInt32.toUInt8, nat_toUInt8_toNat]
    congr 1
    omega
  · have m1x : ∀ n, ((Nat.toUInt8 n) &&& 0x3f ||| 0x80).toNat = 128 + n % 64 := by
      intro n
      have := m1 n
      rw [(b n).1] at this
      rw [Nat.mod_mod_of_dvd n (by decide : 64 ∣ 256)] at this
      exact this
    have m2x : ∀ n, ((Nat.toUInt8 n) &&& 0x1f ||| 0xc0).toNat = 192 + n % 32 := by
      intro n
      have := m2 n
      rw [(b n).2.1] at this
      rw [Nat.mod_mod_of_dvd n (by decide : 32 ∣ 256)] at this
      exact this
    have m3x : ∀ n, ((Nat.toUInt8 n) &&& 0x0f ||| 0xe0).toNat = 224 + n % 16 := by
      intro n
      have := m3 n
      rw [(b n).2.2.1] at this
      rw [Nat.mod_mod_of_dvd n (by decide : 16 ∣ 256)] at this
      exact this
    have m4x : ∀ n, ((Nat.toUInt8 n) &&& 0x07 ||| 0xf0).toNat = 240 + n % 8 := by
      intro n
      have := m4 n
      rw [(b n).2.2.2] at this
      rw [Nat.mod_mod_of_dvd n (by decide : 8 ∣ 256)] at this
      exact this
    by_cases h2 : c.val.toNat ≤ 0x7ff
    · simp only [h1, h2, if_true, if_false, List.map_cons, List.map_nil, UInt32.toUInt8,
        m1x, m2x, s6]
      norm_num
    · by_cases h3 : c.val.toNat ≤ 0xffff
      · simp only [h1, h2, h3, if_true, if_false, List.map_cons, List.map_nil, UInt32.toUInt8,
          m1x, m3x, s6, s12]
        norm_num
      · simp only [h1, h2, h3, if_false, List.map_cons, List.map_nil, UInt32.toUInt8,
          m1x, m4x, s6, s12, s18]
        norm_num

theorem utf8Nat_ne_nil (v : Nat) : utf8Nat v ≠ [] := by
  unfold utf8Nat
  split
  · simp
  · split
    · simp
    · split <;> simp

theorem utf8Nat_append_inj (v w : Nat) (hv : v < 0x110000) (hw : w < 0x110000)
    (r1 r2 : List Nat) (h : utf8Nat v ++ r1 = utf8Nat w ++ r2) : v = w ∧ r1 = r2 := by
  unfold utf8Nat at h
  by_cases v1 : v ≤ 0x7f <;> by_cases v2 : v ≤ 0x7ff <;> by_cases v3 : v ≤ 0xffff <;>
    by_cases w1 : w ≤ 0x7f <;> by_cases w2 : w ≤ 0x7ff <;> by_cases w3 : w ≤ 0xffff <;>
    simp only [v1, v2, v3, w1, w2, w3, if_true, if_false, List.cons_append, List.nil_append,
      List.cons.injEq] at h <;>
    first
    | omega
    | (refine ⟨by omega, ?_⟩
       first
       | exact h.2
       | exact h.2.2
       | exact h.2.2.2
       | exact h.2.2.2.2)

theorem stringBytes_eq_flatMap (s : String) :
    stringBytes s = s.data.flatMap fun c => utf8Nat c.val.toNat := by
  unfold stringBytes
  induction s.data with
  | nil => rfl
  | cons c cs ih =>
    rw [List.flatMap_cons, List.map_append, ih, utf8EncodeChar_toNat, List.flatMap_cons]

theorem char_toNat_lt (c : Char) : c.val.toNat < 0x110000 := by
  rcases c.valid with h | ⟨_, h⟩
  · exact Nat.lt_trans h (by decide)
  · exact h

theorem flatMap_utf8Nat_inj (l1 l2 : List Char)
    (h : (l1.flatMap fun c => utf8Nat c.val.toNat) = l2.flatMap fun c => utf8Nat c.val.toNat) :
    l1 = l2 := by
  induction l1 generalizing l2 with
  | nil =>
    cases l2 with
    | nil => rfl
    | cons d ds =>
      rw [List.flatMap_cons, List.flatMap_nil] at h
      exact absurd (List.append_eq_nil.1 h.symm).1 (utf8Nat_ne_nil _)
  | cons c cs ih =>
    cases l2 with
    | nil =>
      rw [List.flatMap_cons, List.flatMap_nil] at h
      exact absurd (List.append_eq_nil.1 h).1 (utf8Nat_ne_nil _)
    | cons d ds =>
      rw [List.flatMap_cons, List.flatMap_cons] at h
      obtain ⟨hv, hr⟩ := utf8Nat_append_inj _ _ (char_toNat_lt c) (char_toNat_lt d) _ _ h
      have hcd : c = d := Char.ext (UInt32.toNat.inj hv)
      rw [hcd, ih ds hr]

theorem stringBytes_injective (a b : String) (h : stringBytes a = stringBytes b) : a = b := by
  rw [stringBytes_eq_flatMap, stringBytes_eq_flatMap] at h
  exact String.ext (flatMap_utf8Nat_inj _ _ h)

theorem bytesLE_antisymm (a b : List Nat) (hab : bytesLE a b = true) (hba : bytesLE b a = true) :
    a = b := by
  induction a generalizing b with
  | nil =>
    cases b with
    | nil => rfl
    | cons y ys => simp [bytesLE] at hba
  | cons x xs ih =>
    cases b with
    | nil => simp [bytesLE] at hab
    | cons y ys =>
      simp only [bytesLE, Bool.or_eq_true, Bool.and_eq_true, decide_eq_true_eq] at hab hba
      rcases hab with h1 | ⟨h1, h1r⟩
      · rcases hba with h2 | ⟨h2, _⟩
        · omega
        · omega
      · rcases hba with h2 | ⟨_, h2r⟩
        · omega
        · rw [h1, ih ys h1r h2r]

instance stringLE_isAntisymm : IsAntisymm String stringLE :=
  ⟨fun a b hab hba => stringBytes_injective a b (bytesLE_antisymm _ _ hab hba)⟩

theorem sortStrings_eq_of_perm (l1 l2 : List String) (h : l1.Perm l2) :
    sortStrings l1 = sortStrings l2 :=
  List.eq_of_perm_of_sorted
    (((sortStrings_perm l1).trans h).trans (sortStrings_perm l2).symm)
    (sortStrings_sorted l1) (sortStrings_sorted l2)

/-! ## Pooled bindings, input order and the slice helpers -/

/-- C21: parameter bindings are pooled across the whole pipeline. If any pipeline task of
the main or finally list, with or without a task reference, has a parameter binding named
q, no list recorded by `ValidateParams` contains q, under whatever pipeline-task name. -/
theorem validateParams_pooled (p : extendedPipeline) (cTasks : List extendedTask)
    (cClusterTasks : List extendedClusterTask)
    (pt : PipelineTask) (hpt : pt ∈ p.Spec.Tasks ++ p.Spec.Finally)
    (b : Param) (hb : b ∈ pt.Params) (k : String) (l : List String)
    (hl : mapGet (pTasksWithMissingParams p cTasks cClusterTasks) k = some l) :
    b.Name ∉ l := by
  intro hin
  rcases mapGet_foldl_some (missingParams p cTasks cClusterTasks) (allPipelineTasks p) []
    k l hl with h0 | ⟨pt2, _, _, hmiss, _⟩
  · simp [mapGet] at h0
  · rw [← hmiss, mem_missingParams] at hin
    exact hin.2 ((mem_pParamNames p b.Name).2 ⟨pt, hpt, b, hb, rfl⟩)

/-- Witness of C21: in the second case of `TestValidateParams` the parameter `param-extra`
is required by the task `task-a` and bound by the pipeline task `task-a`; with the task
`task-finally` requiring it as well it is still not listed under `task-finally`, which
does not bind it. -/
theorem validateParams_pooled_witness :
    mapGet (pTasksWithMissingParams testPipeline
        [⟨"task-finally", ⟨[⟨"param-finally", none⟩, ⟨"param-extra", none⟩,
          ⟨"param-missed-2", none⟩], []⟩⟩] []) "task-finally" = some ["param-missed-2"] ∧
    (⟨"param-extra", .string "$(params.param1)-$(params.param2)"⟩ : Param).Name ∉
      ["param-missed-2"] :=
  ⟨by decide,
    validateParams_pooled testPipeline
      [⟨"task-finally", ⟨[⟨"param-finally", none⟩, ⟨"param-extra", none⟩,
        ⟨"param-missed-2", none⟩], []⟩⟩] [] testTaskA (by decide)
      ⟨"param-extra", .string "$(params.param1)-$(params.param2)"⟩ (by decide)
      "task-finally" ["param-missed-2"] (by decide)⟩

theorem sliceOutliers_perm (big1 big2 small1 small2 : List String)
    (hbig : ∀ s, s ∈ big1 ↔ s ∈ big2) (hsmall : small1.Perm small2) :
    (sliceOutliers big1 small1).Perm (sliceOutliers big2 small2) := by
  rw [sliceOutliers_eq_filter, sliceOutliers_eq_filter]
  have hfun : (fun s => decide (s ∉ big1)) = fun s => decide (s ∉ big2) := by
    funext s
    simp only [hbig s]
  rw [hfun]
  exact hsmall.filter _

theorem missingTasks_perm (p1 p2 : extendedPipeline) (t1 t2 : List extendedTask)
    (c1 c2 : List extendedClusterTask)
    (hpts : (p1.Spec.Tasks ++ p1.Spec.Finally).Perm (p2.Spec.Tasks ++ p2.Spec.Finally))
    (ht : t1.Perm t2) (hc : c1.Perm c2) :
    (missingTasks p1 t1 c1).Perm (missingTasks p2 t2 c2) := by
  unfold missingTasks
  apply List.Perm.append
  · apply sliceOutliers_perm
    · intro s
      exact (ht.map _).mem_iff
    · exact hpts.filterMap _
  · apply sliceOutliers_perm
    · intro s
      exact (hc.map _).mem_iff
    · exact hpts.filterMap _

/-- C22: `ValidateTaskRefs` is insensitive to the input order. Two pipelines of the same
name whose pipeline tasks, main and finally lists taken together, are rearrangements of
each other, checked against rearranged task and cluster-task lists, get the same result:
no error, or the same message. -/
theorem validateTaskRefs_perm (p1 p2 : extendedPipeline) (t1 t2 : List extendedTask)
    (c1 c2 : List extendedClusterTask) (hname : p1.Name = p2.Name)
    (hpts : (p1.Spec.Tasks ++ p1.Spec.Finally).Perm (p2.Spec.Tasks ++ p2.Spec.Finally))
    (ht : t1.Perm t2) (hc : c1.Perm c2) :
    ValidateTaskRefs p1 t1 c1 = ValidateTaskRefs p2 t2 c2 := by
  have hperm := missingTasks_perm p1 p2 t1 t2 c1 c2 hpts ht hc
  simp only [ValidateTaskRefs, hperm.length_eq, sortStrings_eq_of_perm _ _ hperm, hname]

/-- Witness of C22: the test pipeline with `task-finally` moved to the front of the main
list and the other tasks to the finally list in reverse order, with the catalog of the
third case of `TestValidateTaskRefs` reversed. -/
theorem validateTaskRefs_perm_witness :
    ValidateTaskRefs testPipeline [namedTask "task-a", namedTask "task-b"]
        [namedClusterTask "task-finally", namedClusterTask "task-zzz"] =
      ValidateTaskRefs
        ⟨"test-pipeline", ⟨[], [], [testTaskFinally], [testTaskC, testTaskB, testTaskA]⟩⟩
        [namedTask "task-b", namedTask "task-a"]
        [namedClusterTask "task-zzz", namedClusterTask "task-finally"] :=
  validateTaskRefs_perm testPipeline
    ⟨"test-pipeline", ⟨[], [], [testTaskFinally], [testTaskC, testTaskB, testTaskA]⟩⟩
    [namedTask "task-a", namedTask "task-b"] [namedTask "task-b", namedTask "task-a"]
    [namedClusterTask "task-finally", namedClusterTask "task-zzz"]
    [namedClusterTask "task-zzz", namedClusterTask "task-finally"] rfl (by decide)
    (by decide) (by decide)

/-- C23: `sliceOutliers bigSlice smallSlice` is smallSlice without the elements that occur
in bigSlice, the others in their original order and number; it is empty exactly when
every element of smallSlice occurs in bigSlice; and `sliceIncludeString slice s` is true
exactly when s is an element of slice. -/
theorem sliceOutliers_spec (bigSlice smallSlice slice : List String) (s : String) :
    sliceOutliers bigSlice smallSlice = smallSlice.filter (fun x => decide (x ∉ bigSlice)) ∧
    (∀ x, (sliceOutliers bigSlice smallSlice).count x =
      if x ∈ bigSlice then 0 else smallSlice.count x) ∧
    (sliceOutliers bigSlice smallSlice).Sublist smallSlice ∧
    (sliceOutliers bigSlice smallSlice = [] ↔ ∀ x ∈ smallSlice, x ∈ bigSlice) ∧
    (sliceIncludeString slice s = true ↔ s ∈ slice) := by
  refine ⟨sliceOutliers_eq_filter bigSlice smallSlice, ?_, ?_,
    sliceOutliers_eq_nil_iff bigSlice smallSlice, sliceIncludeString_eq_true_iff slice s⟩
  · intro x
    rw [sliceOutliers_eq_filter]
    by_cases hx : x ∈ bigSlice
    · rw [if_pos hx]
      apply List.count_eq_zero.2
      intro hmem
      have := (List.mem_filter.1 hmem).2
      simp [hx] at this
    · rw [if_neg hx]
      exact List.count_filter (by simpa using hx)
  · rw [sliceOutliers_eq_filter]
    exact List.filter_sublist _

/-! ## The messages of `ValidateParams` and `ValidateWorkspaces` -/

theorem fmtMap_eq (m : GoMap) (h : (m.map (·.1)).Nodup) :
    ∃ entries : List (String × List String),
      entries.Perm m ∧
      (∀ k l, (k, l) ∈ entries ↔ mapGet m k = some l) ∧
      List.Pairwise (fun a b => List.Lex (· < ·) (stringBytes a.1) (stringBytes b.1)) entries ∧
      fmtMap m = "map[" ++ " ".intercalate
        (entries.map fun kv => kv.1 ++ ":" ++ "[" ++ " ".intercalate kv.2 ++ "]") ++ "]" := by
  have hperm := List.perm_insertionSort (fun a b : String × List String => stringLE a.1 b.1) m
  refine ⟨List.insertionSort (fun a b => stringLE a.1 b.1) m, hperm, ?_, ?_, ?_⟩
  · intro k l
    rw [hperm.mem_iff]
    exact mem_iff_mapGet m h k l
  · have hsorted := List.sorted_insertionSort (fun a b : String × List String =>
      stringLE a.1 b.1) m
    have hnd : ((List.insertionSort (fun a b : String × List String => stringLE a.1 b.1)
        m).map (·.1)).Nodup := (hperm.map _).nodup_iff.2 h
    have hne : List.Pairwise (fun a b : String × List String => a.1 ≠ b.1)
        (List.insertionSort (fun a b => stringLE a.1 b.1) m) := List.pairwise_map.1 hnd
    refine (List.Pairwise.and hsorted hne).imp ?_
    rintro a b ⟨hab, hneq⟩
    rcases (bytesLE_iff_lex _ _).1 hab with heq | hlex
    · exact absurd (stringBytes_injective _ _ heq) hneq
    · exact hlex
  · rw [fmtMap, fmtElems_eq_intercalate]
    congr 2
    congr 1
    apply List.map_congr_left
    intro kv _
    rw [fmtStrings, fmtElems_eq_intercalate]
    simp only [String.append_assoc]

/-- C18: with a non-empty report, the error of `ValidateParams` is the pipeline name,
the text " is missing the following params:", a line break and the map, and the error of
`ValidateWorkspaces` is the same with "workspaces"; the map is printed as `map[`, the
pairs of the report (one per reported pipeline-task name) in strictly ascending byte-wise
order of the names, each as the name, a colon and its missing list between square
brackets with single spaces, and `]`. The second cases of `TestValidateParams` and
`TestValidateWorkspaces` give the messages of the tests. -/
theorem validate_messages (p : extendedPipeline) (cTasks : List extendedTask)
    (cClusterTasks : List extendedClusterTask) :
    (pTasksWithMissingParams p cTasks cClusterTasks ≠ [] →
      ∃ entries : List (String × List String),
        entries.Perm (pTasksWithMissingParams p cTasks cClusterTasks) ∧
        (∀ k l, (k, l) ∈ entries ↔
          mapGet (pTasksWithMissingParams p cTasks cClusterTasks) k = some l) ∧
        List.Pairwise (fun a b =>
          List.Lex (· < ·) (stringBytes a.1) (stringBytes b.1)) entries ∧
        ValidateParams p cTasks cClusterTasks =
          some (p.Name ++ " is missing the following params:\n" ++ "map[" ++
            " ".intercalate
              (entries.map fun kv => kv.1 ++ ":" ++ "[" ++ " ".intercalate kv.2 ++ "]") ++
            "]")) ∧
    (pTasksWithMissingWorkspaces p cTasks cClusterTasks ≠ [] →
      ∃ entries : List (String × List String),
        entries.Perm (pTasksWithMissingWorkspaces p cTasks cClusterTasks) ∧
        (∀ k l, (k, l) ∈ entries ↔
          mapGet (pTasksWithMissingWorkspaces p cTasks cClusterTasks) k = some l) ∧
        List.Pairwise (fun a b =>
          List.Lex (· < ·) (stringBytes a.1) (stringBytes b.1)) entries ∧
        ValidateWorkspaces p cTasks cClusterTasks =
          some (p.Name ++ " is missing the following workspaces:\n" ++ "map[" ++
            " ".intercalate
              (entries.map fun kv => kv.1 ++ ":" ++ "[" ++ " ".intercalate kv.2 ++ "]") ++
            "]")) ∧
    ValidateParams testPipeline testParamsTasks testParamsClusterTasks =
      some ("test-pipeline is missing the following params:\n" ++
        "map[task-a:[param-missed-1] task-b:[param-missed-3] " ++
        "task-finally:[param-missed-2 param-missed-3]]") ∧
    ValidateWorkspaces testPipeline testWorkspacesTasks testWorkspacesClusterTasks =
      some ("test-pipeline is missing the following workspaces:\n" ++
        "map[task-a:[ws-a-missing] task-b:[ws-b-missing ws-b-missing-2] " ++
        "task-finally:[ws-a-missing-finally]]") := by
  refine ⟨?_, ?_, by decide, by decide⟩
  · intro hne
    obtain ⟨entries, hperm, hmem, hsorted, hfmt⟩ :=
      fmtMap_eq (pTasksWithMissingParams p cTasks cClusterTasks)
        (nodup_keys_foldl (missingParams p cTasks cClusterTasks) (allPipelineTasks p) []
          List.nodup_nil)
    refine ⟨entries, hperm, hmem, hsorted, ?_⟩
    have hlen : (pTasksWithMissingParams p cTasks cClusterTasks).length ≠ 0 := by
      intro h0
      exact hne (List.length_eq_zero.1 h0)
    simp only [ValidateParams, hlen, ne_eq, not_false_eq_true, if_true, hfmt,
      String.append_assoc]
  · intro hne
    obtain ⟨entries, hperm, hmem, hsorted, hfmt⟩ :=
      fmtMap_eq (pTasksWithMissingWorkspaces p cTasks cClusterTasks)
        (nodup_keys_foldl (missingWorkspaces p cTasks cClusterTasks) (allPipelineTasks p) []
          List.nodup_nil)
    refine ⟨entries, hperm, hmem, hsorted, ?_⟩
    have hlen : 0 < (pTasksWithMissingWorkspaces p cTasks cClusterTasks).length :=
      List.length_pos.2 hne
    simp only [ValidateWorkspaces, hlen, gt_iff_lt, if_true, hfmt, String.append_assoc]

/-- Witness of C18: the second case of `TestValidateParams` has a non-empty report and its
error has the stated shape. -/
theorem validate_messages_witness :
    pTasksWithMissingParams testPipeline testParamsTasks testParamsClusterTasks ≠ [] ∧
    ∃ entries : List (String × List String),
      entries.Perm (pTasksWithMissingParams testPipeline testParamsTasks
        testParamsClusterTasks) ∧
      (∀ k l, (k, l) ∈ entries ↔
        mapGet (pTasksWithMissingParams testPipeline testParamsTasks testParamsClusterTasks) k =
          some l) ∧
      List.Pairwise (fun a b =>
        List.Lex (· < ·) (stringBytes a.1) (stringBytes b.1)) entries ∧
      ValidateParams testPipeline testParamsTasks testParamsClusterTasks =
        some (testPipeline.Name ++ " is missing the following params:\n" ++ "map[" ++
          " ".intercalate
            (entries.map fun kv => kv.1 ++ ":" ++ "[" ++ " ".intercalate kv.2 ++ "]") ++
          "]") :=
  ⟨by decide,
    (validate_messages testPipeline testParamsTasks testParamsClusterTasks).1 (by decide)⟩

end Mario
